import Mathlib

/-!
Verification of the rendering/animation engine of the CYD LED Matrix Retro
Clock firmware.  The definitions below are a shallow embedding of the C++
source (`src/unnamed/part_002` with `src/include/config.h`, and the earlier
revision `src/unnamed/part_001` with its own config `src/unnamed/part_004`):
machine integers become `Nat`/`Int` (C `int` division is `Int.tdiv`, which
truncates toward zero), the framebuffer array becomes a list of rows, and
the IEEE binary32 arithmetic used by the morph animations is embedded
exactly as scaled-integer arithmetic with round-to-nearest-even.
-/

namespace RetroClock

/-! ### Configuration constants (src/include/config.h) -/

def LED_MATRIX_W : Nat := 64
def LED_MATRIX_H : Nat := 32
def MORPH_STEPS : Nat := 20
def DEFAULT_LED_DIAMETER : Nat := 5
def DEFAULT_LED_GAP : Nat := 0
def STATUS_BAR_H : Int := 50

/-! ### Digit bitmaps and layout constants (part_002 lines 156-239) -/

def DIGIT_W : Nat := 9
def DIGIT_H : Nat := LED_MATRIX_H
def COLON_W : Nat := 2
def DIGIT_GAP : Nat := 1

/-- A glyph bitmap: `DIGIT_H` rows, each row a 16-bit word, MSB left
(struct `Bitmap` in the source). -/
structure Bitmap where
  rows : List Nat
  deriving DecidableEq

/-- The `setPx` lambda used by `makeDigit7Seg` and `initBitmaps`: set bit
`15 - x` of row `y`, ignoring coordinates outside the `w × DIGIT_H` box
(the source also guards `x < 0 || y < 0`, vacuous over `Nat`). -/
def bmSetPx (w : Nat) (rows : List Nat) (x y : Nat) : List Nat :=
  if x < w && y < DIGIT_H then rows.set y (rows.getD y 0 ||| (1 <<< (15 - x))) else rows

/-- Fill a rectangle iterating y in the outer loop (horizontal segments). -/
def fillRectYX (w : Nat) (rows : List Nat) (ys xs : List Nat) : List Nat :=
  ys.foldl (fun r y => xs.foldl (fun r2 x => bmSetPx w r2 x y) r) rows

/-- Fill a rectangle iterating x in the outer loop (vertical segments). -/
def fillRectXY (w : Nat) (rows : List Nat) (xs ys : List Nat) : List Nat :=
  xs.foldl (fun r x => ys.foldl (fun r2 y => bmSetPx w r2 x y) r) rows

/-- Segment activation table of `makeDigit7Seg`, entries `seg[0] .. seg[6]`. -/
def segTable (d : Nat) : List Bool :=
  match d with
  | 0 => [true, true, true, true, true, true, false]
  | 1 => [false, true, true, false, false, false, false]
  | 2 => [true, true, false, true, true, false, true]
  | 3 => [true, true, true, true, false, false, true]
  | 4 => [false, true, true, false, false, true, true]
  | 5 => [true, false, true, true, false, true, true]
  | 6 => [true, false, true, true, true, true, true]
  | 7 => [true, true, true, false, false, false, false]
  | 8 => [true, true, true, true, true, true, true]
  | 9 => [true, true, true, true, false, true, true]
  | _ => [false, false, false, false, false, false, false]

/-- `makeDigit7Seg` (part_002 lines 179-220): renders the lit segments as
filled rectangles into a fresh bitmap, in the same order as the source
(a, d, g then f, b, e, c). -/
def makeDigit7Seg (d : Nat) : Bitmap :=
  let seg := segTable d
  let s := fun i => seg.getD i false
  let padX := 0
  let padY := 1
  let th := 4
  let w := DIGIT_W
  let h := DIGIT_H
  let midY := h / 2
  let r0 : List Nat := List.replicate DIGIT_H 0
  let r1 := if s 0 then fillRectYX DIGIT_W r0 (List.range' padY th) (List.range' padX (w - padX - padX)) else r0
  let r2 := if s 3 then fillRectYX DIGIT_W r1 (List.range' (h - padY - th) th) (List.range' padX (w - padX - padX)) else r1
  let r3 := if s 6 then fillRectYX DIGIT_W r2 (List.range' (midY - th / 2) th) (List.range' padX (w - padX - padX)) else r2
  let r4 := if s 5 then fillRectXY DIGIT_W r3 (List.range' padX th) (List.range' padY (midY - padY)) else r3
  let r5 := if s 1 then fillRectXY DIGIT_W r4 (List.range' (w - padX - th) th) (List.range' padY (midY - padY)) else r4
  let r6 := if s 4 then fillRectXY DIGIT_W r5 (List.range' padX th) (List.range' midY (h - padY - midY)) else r5
  let r7 := if s 2 then fillRectXY DIGIT_W r6 (List.range' (w - padX - th) th) (List.range' midY (h - padY - midY)) else r6
  ⟨r7⟩

/-- The `DIGITS` table filled by `initBitmaps`. -/
def DIGITS (d : Nat) : Bitmap := makeDigit7Seg d

/-- The `COLON` bitmap built by `initBitmaps` (two 2-wide dots at rows
10-12 and 19-21). -/
def COLON : Bitmap :=
  let r0 : List Nat := List.replicate DIGIT_H 0
  let r1 := fillRectYX COLON_W r0 (List.range' 10 3) (List.range COLON_W)
  let r2 := fillRectYX COLON_W r1 (List.range' 19 3) (List.range COLON_W)
  ⟨r2⟩

/-- The per-cell bit test used throughout the source:
`(bm.rows[y] >> (15-x)) & 0x1`. -/
def bmOn (bm : Bitmap) (x y : Nat) : Bool :=
  (bm.rows.getD y 0 >>> (15 - x)) &&& 1 == 1

/-! ### DisplayMapper geometry (part_002 lines 385-396 and 468-498) -/

/-- `computeRenderPitch`: the logical-to-physical scale factor, computed
from the TFT size and the status bar height. -/
def computeRenderPitch (tftW tftH statusBarH : Int) : Int :=
  let matrixAreaH := tftH - statusBarH
  let matrixAreaH := if matrixAreaH < 1 then tftH else matrixAreaH
  let maxPitch := min (Int.tdiv tftW (LED_MATRIX_W : Int)) (Int.tdiv matrixAreaH (LED_MATRIX_H : Int))
  if maxPitch < 1 then 1 else maxPitch

/-- The dot/gap/inset geometry computed at the top of `renderFBToTFT`
from the pitch and the configured LED gap and diameter (both `uint8_t`). -/
structure Geometry where
  dot : Int
  gap : Int
  inset : Int
  pitch : Int
  deriving DecidableEq

/-- Gap and dot clamping of `renderFBToTFT` (part_002 lines 484-498). -/
def renderGeometry (pitch : Int) (ledGap ledDiameter : Nat) : Geometry :=
  let gapWanted : Int := (ledGap : Int)
  let gapWanted := if gapWanted < 0 then 0 else gapWanted
  let gapWanted := if gapWanted > pitch - 1 then pitch - 1 else gapWanted
  let dot := pitch - gapWanted
  let maxDot : Int := (ledDiameter : Int)
  let maxDot := if maxDot < 1 then 1 else maxDot
  let dot := if dot > maxDot then maxDot else dot
  let dot := if dot < 1 then 1 else dot
  let gap := pitch - dot
  let inset := Int.tdiv (pitch - dot) 2
  ⟨dot, gap, inset, pitch⟩

/-- C1: for every display size, status bar height and configured
diameter/gap, the geometry computed before rendering satisfies
`dot + gap = pitch`, `dot ≥ 1` and `pitch ≥ 1`. -/
theorem geometry_invariant (tftW tftH statusBarH : Int) (ledGap ledDiameter : Nat) :
    (renderGeometry (computeRenderPitch tftW tftH statusBarH) ledGap ledDiameter).dot +
      (renderGeometry (computeRenderPitch tftW tftH statusBarH) ledGap ledDiameter).gap =
      (renderGeometry (computeRenderPitch tftW tftH statusBarH) ledGap ledDiameter).pitch ∧
    1 ≤ (renderGeometry (computeRenderPitch tftW tftH statusBarH) ledGap ledDiameter).dot ∧
    1 ≤ (renderGeometry (computeRenderPitch tftW tftH statusBarH) ledGap ledDiameter).pitch := by
  have hp : 1 ≤ computeRenderPitch tftW tftH statusBarH := by
    unfold computeRenderPitch
    dsimp only
    split <;> omega
  generalize computeRenderPitch tftW tftH statusBarH = p at hp
  unfold renderGeometry
  dsimp only
  split_ifs <;> simp_all <;> omega

/-- C5 counterexample: when the status bar swallows the whole display
height (statusBarH = displayH = 240), `computeRenderPitch` falls back to
the full display height and returns 5, while the claimed closed formula
`max 1 (min ⌊W/64⌋ ⌊(H-sbh)/32⌋)` yields 1. -/
theorem computeRenderPitch_formula_fails :
    computeRenderPitch 320 240 240 = 5 ∧
    computeRenderPitch 320 240 240 ≠
      max 1 (min (Int.tdiv 320 64) (Int.tdiv (240 - 240) 32)) := by
  constructor <;> decide

/-- C5 (amended): whenever the matrix area `displayH - statusBarH` is at
least 1 (so the fallback branch is not taken) and `displayW ≥ 0`, the
render pitch equals `max 1 (min ⌊displayW/64⌋ ⌊(displayH-statusBarH)/32⌋)`;
and in the concrete scenario 320×240 with a 50-pixel status bar and
requested diameter 5, gap 0, the geometry is pitch=5, dot=5, gap=0,
inset=0. -/
theorem computeRenderPitch_eq_formula (tftW tftH statusBarH : Int)
    (hW : 0 ≤ tftW) (hH : 1 ≤ tftH - statusBarH) :
    computeRenderPitch tftW tftH statusBarH =
      max 1 (min (Int.tdiv tftW 64) (Int.tdiv (tftH - statusBarH) 32)) ∧
    computeRenderPitch 320 240 50 = 5 ∧
    renderGeometry (computeRenderPitch 320 240 50) DEFAULT_LED_GAP DEFAULT_LED_DIAMETER =
      ⟨5, 0, 0, 5⟩ := by
  refine ⟨?_, by decide, by decide⟩
  unfold computeRenderPitch
  dsimp only
  have h1 : ¬ (tftH - statusBarH < 1) := by omega
  rw [if_neg h1]
  simp only [LED_MATRIX_W, LED_MATRIX_H, Nat.cast_ofNat]
  have ha : 0 ≤ Int.tdiv tftW 64 := Int.tdiv_nonneg hW (by omega)
  generalize Int.tdiv tftW 64 = a at ha
  generalize Int.tdiv (tftH - statusBarH) 32 = b
  rcases le_total a b with h | h <;> rcases le_or_lt 1 a with h2 | h2 <;>
    rcases le_or_lt 1 b with h3 | h3 <;>
    simp [min_def, max_def, *] <;> omega

/-- C5 witness: the amended formula instantiated at the 320×240, 50-pixel
status bar scenario. -/
theorem computeRenderPitch_eq_formula_witness :
    computeRenderPitch 320 240 50 =
      max 1 (min (Int.tdiv 320 64) (Int.tdiv (240 - 50) 32)) :=
  (computeRenderPitch_eq_formula 320 240 50 (by decide) (by decide)).1

/-! ### The logical framebuffer (part_002 lines 108, 140-151; part_001
lines 58-66).  The C array `uint8_t fb[H][W]` becomes a list of `H` rows of
`W` intensities; the accessors are parametrized by the grid size because
the two revisions use different widths (64 vs 128). -/

/-- `fbSet`: bounds-checked single-cell write; out-of-range coordinates
are silently ignored. -/
def fbSetW (W H : Nat) (fb : List (List Nat)) (x y : Int) (v : Nat) : List (List Nat) :=
  if x < 0 ∨ y < 0 ∨ (W : Int) ≤ x ∨ (H : Int) ≤ y then fb
  else fb.set y.toNat ((fb.getD y.toNat []).set x.toNat v)

/-- `fbGet`: bounds-checked read, 0 out of range. -/
def fbGetW (W H : Nat) (fb : List (List Nat)) (x y : Int) : Nat :=
  if x < 0 ∨ y < 0 ∨ (W : Int) ≤ x ∨ (H : Int) ≤ y then 0
  else (fb.getD y.toNat []).getD x.toNat 0

/-- `fbClear`: the whole grid set to one intensity (`memset`). -/
def fbClearW (W H v : Nat) : List (List Nat) :=
  List.replicate H (List.replicate W v)

/-- Well-formedness of the list model: exactly `H` rows of `W` cells,
as the fixed-size C array guarantees by construction. -/
def fbWF (W H : Nat) (fb : List (List Nat)) : Prop :=
  fb.length = H ∧ ∀ i < H, (fb.getD i []).length = W

instance (W H : Nat) (fb : List (List Nat)) : Decidable (fbWF W H fb) := by
  unfold fbWF; infer_instance

theorem fbWF_fbClearW (W H v : Nat) : fbWF W H (fbClearW W H v) := by
  constructor
  · simp [fbClearW]
  · intro i hi
    simp [fbClearW, List.getD_eq_getElem?_getD, List.getElem?_replicate, hi]

theorem fbSetW_out (W H : Nat) (fb : List (List Nat)) (x y : Int) (v : Nat)
    (h : x < 0 ∨ y < 0 ∨ (W : Int) ≤ x ∨ (H : Int) ≤ y) :
    fbSetW W H fb x y v = fb := by
  unfold fbSetW; rw [if_pos h]

theorem fbGetW_out (W H : Nat) (fb : List (List Nat)) (x y : Int)
    (h : x < 0 ∨ y < 0 ∨ (W : Int) ≤ x ∨ (H : Int) ≤ y) :
    fbGetW W H fb x y = 0 := by
  unfold fbGetW; rw [if_pos h]

theorem getD_set_self {α : Type} (l : List α) (i : Nat) (a d : α) (h : i < l.length) :
    (l.set i a).getD i d = a := by
  rw [List.getD_eq_getElem?_getD, List.getElem?_set_self h, Option.getD_some]

theorem getD_set_ne {α : Type} (l : List α) (i j : Nat) (a d : α) (h : i ≠ j) :
    (l.set i a).getD j d = l.getD j d := by
  rw [List.getD_eq_getElem?_getD, List.getElem?_set_ne h, ← List.getD_eq_getElem?_getD]

theorem fbWF_fbSetW (W H : Nat) (fb : List (List Nat)) (x y : Int) (v : Nat)
    (hwf : fbWF W H fb) : fbWF W H (fbSetW W H fb x y v) := by
  unfold fbSetW
  split
  · exact hwf
  · obtain ⟨h1, h2⟩ := hwf
    refine ⟨by simpa using h1, ?_⟩
    intro i hi
    rcases eq_or_ne i y.toNat with h | h
    · subst h
      rw [getD_set_self _ _ _ _ (by omega), List.length_set]
      exact h2 _ hi
    · rw [getD_set_ne _ _ _ _ _ (Ne.symm h)]
      exact h2 _ hi

theorem fbGetW_fbSetW_self (W H : Nat) (fb : List (List Nat)) (x y : Int) (v : Nat)
    (hwf : fbWF W H fb) (hx0 : 0 ≤ x) (hy0 : 0 ≤ y)
    (hx : x < (W : Int)) (hy : y < (H : Int)) :
    fbGetW W H (fbSetW W H fb x y v) x y = v := by
  obtain ⟨h1, h2⟩ := hwf
  have hrow : (fb.getD y.toNat []).length = W := h2 y.toNat (by omega)
  unfold fbSetW fbGetW
  rw [if_neg (by omega), if_neg (by omega)]
  rw [getD_set_self _ _ _ _ (by omega), getD_set_self _ _ _ _ (by omega)]

theorem fbGetW_fbSetW_ne (W H : Nat) (fb : List (List Nat)) (x y x2 y2 : Int) (v : Nat)
    (h : ¬(x2 = x ∧ y2 = y)) :
    fbGetW W H (fbSetW W H fb x y v) x2 y2 = fbGetW W H fb x2 y2 := by
  unfold fbSetW fbGetW
  split
  · rfl
  · rename_i hin
    split
    · rfl
    · rename_i hin2
      rcases eq_or_ne y2 y with hyy | hyy
      · subst hyy
        have hxx : x2 ≠ x := fun hc => h ⟨hc, rfl⟩
        by_cases hlen : y2.toNat < fb.length
        · rw [getD_set_self _ _ _ _ hlen, getD_set_ne _ _ _ _ _ (by omega)]
        · rw [List.set_eq_of_length_le (by omega)]
      · rw [getD_set_ne _ _ _ _ _ (by omega)]

/-! ### Write sequences.  Every drawing routine of the source is a loop of
`fbSet` calls; we characterise such loops as a list of (x, y, value)
writes applied left to right, and prove that the final content of a cell
is the last write that hit it. -/

/-- A single framebuffer write: x coordinate, y coordinate, intensity. -/
abbrev Write := Int × Int × Nat

/-- Apply a list of writes left to right with `fbSet`. -/
def applyWrites (W H : Nat) (fb : List (List Nat)) (l : List Write) : List (List Nat) :=
  l.foldl (fun f w => fbSetW W H f w.1 w.2.1 w.2.2) fb

theorem applyWrites_nil (W H : Nat) (fb : List (List Nat)) :
    applyWrites W H fb [] = fb := rfl

theorem applyWrites_cons (W H : Nat) (fb : List (List Nat)) (w : Write) (l : List Write) :
    applyWrites W H fb (w :: l) = applyWrites W H (fbSetW W H fb w.1 w.2.1 w.2.2) l := rfl

theorem applyWrites_append (W H : Nat) (fb : List (List Nat)) (l1 l2 : List Write) :
    applyWrites W H fb (l1 ++ l2) = applyWrites W H (applyWrites W H fb l1) l2 :=
  List.foldl_append _ _ _ _

theorem fbWF_applyWrites (W H : Nat) (fb : List (List Nat)) (l : List Write)
    (hwf : fbWF W H fb) : fbWF W H (applyWrites W H fb l) := by
  induction l generalizing fb with
  | nil => exact hwf
  | cons w l ih => exact ih _ (fbWF_fbSetW _ _ _ _ _ _ hwf)

/-- The values written to cell (x, y) by a write list, in order. -/
def writesAt (l : List Write) (x y : Int) : List Nat :=
  l.filterMap (fun w => if w.1 = x ∧ w.2.1 = y then some w.2.2 else none)

theorem writesAt_nil (x y : Int) : writesAt [] x y = [] := rfl

theorem writesAt_cons (w : Write) (l : List Write) (x y : Int) :
    writesAt (w :: l) x y =
      (if w.1 = x ∧ w.2.1 = y then [w.2.2] else []) ++ writesAt l x y := by
  by_cases hc : w.1 = x ∧ w.2.1 = y <;> simp [writesAt, List.filterMap_cons, hc]

theorem writesAt_append (l1 l2 : List Write) (x y : Int) :
    writesAt (l1 ++ l2) x y = writesAt l1 x y ++ writesAt l2 x y :=
  List.filterMap_append _ _ _

theorem writesAt_flatMap {α : Type} (l : List α) (g : α → List Write) (x y : Int) :
    writesAt (l.flatMap g) x y = l.flatMap fun a => writesAt (g a) x y :=
  List.filterMap_flatMap _ _ _

/-- A cell no write hits keeps its previous content. -/
theorem fbGet_applyWrites_of_writesAt_nil (W H : Nat) (fb : List (List Nat))
    (l : List Write) (x y : Int) (h : writesAt l x y = []) :
    fbGetW W H (applyWrites W H fb l) x y = fbGetW W H fb x y := by
  induction l generalizing fb with
  | nil => rfl
  | cons w l ih =>
    rw [writesAt_cons] at h
    by_cases hc : w.1 = x ∧ w.2.1 = y
    · rw [if_pos hc] at h
      simp at h
    · rw [if_neg hc, List.nil_append] at h
      rw [applyWrites_cons, ih _ h, fbGetW_fbSetW_ne]
      intro h2
      exact hc ⟨h2.1.symm, h2.2.symm⟩

/-- A cell in range receives the value of the last write that hits it. -/
theorem fbGet_applyWrites_last (W H : Nat) (fb : List (List Nat))
    (l : List Write) (x y : Int) (v : Nat) (hwf : fbWF W H fb)
    (hx0 : 0 ≤ x) (hy0 : 0 ≤ y) (hx : x < (W : Int)) (hy : y < (H : Int))
    (h : (writesAt l x y).getLast? = some v) :
    fbGetW W H (applyWrites W H fb l) x y = v := by
  induction l generalizing fb with
  | nil => simp [writesAt] at h
  | cons w l ih =>
    rw [applyWrites_cons]
    rw [writesAt_cons] at h
    rcases hemp : writesAt l x y with _ | ⟨a, tl⟩
    · rw [fbGet_applyWrites_of_writesAt_nil _ _ _ _ _ _ hemp]
      rw [hemp] at h
      by_cases hc : w.1 = x ∧ w.2.1 = y
      · rw [if_pos hc] at h
        simp at h
        subst h
        obtain ⟨he1, he2⟩ := hc
        subst he1
        subst he2
        exact fbGetW_fbSetW_self _ _ _ _ _ _ hwf hx0 hy0 hx hy
      · rw [if_neg hc] at h
        simp at h
    · refine ih _ (fbWF_fbSetW _ _ _ _ _ _ hwf) ?_
      by_cases hc : w.1 = x ∧ w.2.1 = y
      · rw [if_pos hc, hemp] at h
        rw [hemp]
        simpa using h
      · rw [if_neg hc, List.nil_append] at h
        exact h

/-! ### part_002 framebuffer instance (64×32 grid) -/

/-- `fbSet` of part_002 (lines 148-151). -/
def fbSet (fb : List (List Nat)) (x y : Int) (v : Nat) : List (List Nat) :=
  fbSetW LED_MATRIX_W LED_MATRIX_H fb x y v

/-- `fbGet` of part_001 lines 63-66 (part_002 reads `fb[y][x]` directly
only at in-range loop indices; the bounds-checked accessor is this one). -/
def fbGet (fb : List (List Nat)) (x y : Int) : Nat :=
  fbGetW LED_MATRIX_W LED_MATRIX_H fb x y

/-- `fbClear` of part_002 (line 140). -/
def fbClear (v : Nat) : List (List Nat) :=
  fbClearW LED_MATRIX_W LED_MATRIX_H v

/-- C6: out-of-range `fbSet` is a silent no-op and out-of-range `fbGet`
returns 0; an in-range `fbSet` writes exactly cell (x, y) and leaves every
other cell unchanged. -/
theorem fb_bounds_checked (fb : List (List Nat)) (x y : Int) (v : Nat) :
    ((x < 0 ∨ y < 0 ∨ ((LED_MATRIX_W : Nat) : Int) ≤ x ∨ ((LED_MATRIX_H : Nat) : Int) ≤ y) →
      fbSet fb x y v = fb ∧ fbGet fb x y = 0) ∧
    (fbWF LED_MATRIX_W LED_MATRIX_H fb →
      0 ≤ x → x < ((LED_MATRIX_W : Nat) : Int) → 0 ≤ y → y < ((LED_MATRIX_H : Nat) : Int) →
      fbGet (fbSet fb x y v) x y = v ∧
      ∀ x2 y2 : Int, ¬(x2 = x ∧ y2 = y) →
        fbGet (fbSet fb x y v) x2 y2 = fbGet fb x2 y2) := by
  constructor
  · intro h
    exact ⟨fbSetW_out _ _ _ _ _ _ h, fbGetW_out _ _ _ _ _ h⟩
  · intro hwf hx0 hx hy0 hy
    refine ⟨fbGetW_fbSetW_self _ _ _ _ _ _ hwf hx0 hy0 hx hy, ?_⟩
    intro x2 y2 h2
    exact fbGetW_fbSetW_ne _ _ _ _ _ _ _ _ h2

/-- C6 witness: a concrete out-of-range write (x = 64) is dropped and
reads back 0, and a concrete in-range write at (3, 4) stores 9 there while
leaving cell (0, 0) at its cleared value. -/
theorem fb_bounds_checked_witness :
    (fbSet (fbClear 0) 64 0 7 = fbClear 0 ∧ fbGet (fbClear 0) 64 0 = 0) ∧
    (fbGet (fbSet (fbClear 0) 3 4 9) 3 4 = 9 ∧
      fbGet (fbSet (fbClear 0) 3 4 9) 0 0 = fbGet (fbClear 0) 0 0) :=
  ⟨(fb_bounds_checked (fbClear 0) 64 0 7).1 (by decide),
    ⟨((fb_bounds_checked (fbClear 0) 3 4 9).2 (by decide) (by decide) (by decide)
        (by decide) (by decide)).1,
      ((fb_bounds_checked (fbClear 0) 3 4 9).2 (by decide) (by decide) (by decide)
        (by decide) (by decide)).2 0 0 (by decide)⟩⟩

/-! ### Crossfade morph and static blit (part_002 lines 242-259, 820-829) -/

/-- The per-cell intensity of `drawMorph`: 255 when the cell is on in
both glyphs, a linear fade-out when only in `a`, a linear fade-in when
only in `b`, 0 otherwise (C integer division). -/
def morphVal (aon bon : Bool) (step : Nat) : Nat :=
  if aon && bon then 255
  else if aon && !bon then 255 * (MORPH_STEPS - step) / MORPH_STEPS
  else if !aon && bon then 255 * step / MORPH_STEPS
  else 0

/-- `drawMorph` (part_002 lines 242-259): crossfade `a` into `b` over the
`w × DIGIT_H` box at (x0, y0); cells whose computed value is 0 are
skipped, not written. -/
def drawMorph (a b : Bitmap) (step : Nat) (x0 y0 : Int) (w : Nat)
    (fb : List (List Nat)) : List (List Nat) :=
  (List.range DIGIT_H).foldl (fun fb1 y =>
    (List.range w).foldl (fun fb2 x =>
      if morphVal (bmOn a x y) (bmOn b x y) step = 0 then fb2
      else fbSet fb2 (x0 + (x : Int)) (y0 + ((y * LED_MATRIX_H / DIGIT_H : Nat) : Int))
        (morphVal (bmOn a x y) (bmOn b x y) step)) fb1) fb

/-- `drawBitmapSolid` (part_002 lines 820-829): blit the on-pixels of a
glyph at one fixed intensity. -/
def drawBitmapSolid (bm : Bitmap) (x0 y0 : Int) (w : Nat) (intensity : Nat)
    (fb : List (List Nat)) : List (List Nat) :=
  (List.range DIGIT_H).foldl (fun fb1 y =>
    (List.range w).foldl (fun fb2 x =>
      if bmOn bm x y then
        fbSet fb2 (x0 + (x : Int)) (y0 + ((y * LED_MATRIX_H / DIGIT_H : Nat) : Int)) intensity
      else fb2) fb1) fb

/-- The write list emitted by `drawMorph`. -/
def morphWrites (a b : Bitmap) (step : Nat) (x0 y0 : Int) (w : Nat) : List Write :=
  (List.range DIGIT_H).flatMap fun y =>
    (List.range w).flatMap fun x =>
      if morphVal (bmOn a x y) (bmOn b x y) step = 0 then []
      else [(x0 + (x : Int), y0 + ((y * LED_MATRIX_H / DIGIT_H : Nat) : Int),
        morphVal (bmOn a x y) (bmOn b x y) step)]

/-- The write list emitted by `drawBitmapSolid`. -/
def solidWrites (bm : Bitmap) (x0 y0 : Int) (w intensity : Nat) : List Write :=
  (List.range DIGIT_H).flatMap fun y =>
    (List.range w).flatMap fun x =>
      if bmOn bm x y then
        [(x0 + (x : Int), y0 + ((y * LED_MATRIX_H / DIGIT_H : Nat) : Int), intensity)]
      else []

theorem foldl_applyWrites {α : Type} (W H : Nat) (g : α → List Write) (l : List α)
    (fb : List (List Nat)) :
    l.foldl (fun acc a => applyWrites W H acc (g a)) fb = applyWrites W H fb (l.flatMap g) := by
  induction l generalizing fb with
  | nil => rfl
  | cons a l ih =>
    rw [List.foldl_cons, List.flatMap_cons, applyWrites_append]
    exact ih _

theorem flatMap_eq_nil_of {α β : Type} (l : List α) (g : α → List β)
    (h : ∀ a ∈ l, g a = []) : l.flatMap g = [] := by
  induction l with
  | nil => rfl
  | cons a l ih =>
    rw [List.flatMap_cons, h a (List.mem_cons_self a l), List.nil_append]
    exact ih fun a ha => h a (List.mem_cons_of_mem _ ha)

theorem flatMap_eq_of_single {α β : Type} (l : List α) (g : α → List β) (a0 : α)
    (h0 : a0 ∈ l) (hnd : l.Nodup) (h : ∀ a ∈ l, a ≠ a0 → g a = []) :
    l.flatMap g = g a0 := by
  induction l with
  | nil => simp at h0
  | cons b l ih =>
    rw [List.flatMap_cons]
    rcases List.mem_cons.mp h0 with hb | hb
    · subst hb
      rw [flatMap_eq_nil_of l g fun a ha =>
        h a (List.mem_cons_of_mem _ ha) (fun hc => (List.nodup_cons.mp hnd).1 (hc ▸ ha))]
      exact List.append_nil _
    · rw [h b (List.mem_cons_self b l) (fun hc => (List.nodup_cons.mp hnd).1 (hc ▸ hb)),
        List.nil_append]
      exact ih hb (List.nodup_cons.mp hnd).2 fun a ha => h a (List.mem_cons_of_mem _ ha)

theorem drawMorph_eq_applyWrites (a b : Bitmap) (step : Nat) (x0 y0 : Int) (w : Nat)
    (fb : List (List Nat)) :
    drawMorph a b step x0 y0 w fb =
      applyWrites LED_MATRIX_W LED_MATRIX_H fb (morphWrites a b step x0 y0 w) := by
  unfold drawMorph morphWrites
  have hb : ∀ y : Nat,
      (fun fb2 (x : Nat) =>
        if morphVal (bmOn a x y) (bmOn b x y) step = 0 then fb2
        else fbSet fb2 (x0 + (x : Int)) (y0 + ((y * LED_MATRIX_H / DIGIT_H : Nat) : Int))
          (morphVal (bmOn a x y) (bmOn b x y) step)) =
      (fun fb2 (x : Nat) => applyWrites LED_MATRIX_W LED_MATRIX_H fb2
        (if morphVal (bmOn a x y) (bmOn b x y) step = 0 then []
         else [(x0 + (x : Int), y0 + ((y * LED_MATRIX_H / DIGIT_H : Nat) : Int),
           morphVal (bmOn a x y) (bmOn b x y) step)])) := by
    intro y
    funext fb2 x
    split <;> rfl
  have hrow : (fun fb1 (y : Nat) =>
      (List.range w).foldl (fun fb2 (x : Nat) =>
        if morphVal (bmOn a x y) (bmOn b x y) step = 0 then fb2
        else fbSet fb2 (x0 + (x : Int)) (y0 + ((y * LED_MATRIX_H / DIGIT_H : Nat) : Int))
          (morphVal (bmOn a x y) (bmOn b x y) step)) fb1) =
      (fun fb1 (y : Nat) => applyWrites LED_MATRIX_W LED_MATRIX_H fb1
        ((List.range w).flatMap fun x =>
          if morphVal (bmOn a x y) (bmOn b x y) step = 0 then []
          else [(x0 + (x : Int), y0 + ((y * LED_MATRIX_H / DIGIT_H : Nat) : Int),
            morphVal (bmOn a x y) (bmOn b x y) step)])) := by
    funext fb1 y
    rw [hb y, foldl_applyWrites]
  rw [hrow, foldl_applyWrites]

theorem drawBitmapSolid_eq_applyWrites (bm : Bitmap) (x0 y0 : Int) (w intensity : Nat)
    (fb : List (List Nat)) :
    drawBitmapSolid bm x0 y0 w intensity fb =
      applyWrites LED_MATRIX_W LED_MATRIX_H fb (solidWrites bm x0 y0 w intensity) := by
  unfold drawBitmapSolid solidWrites
  have hb : ∀ y : Nat,
      (fun fb2 (x : Nat) =>
        if bmOn bm x y then
          fbSet fb2 (x0 + (x : Int)) (y0 + ((y * LED_MATRIX_H / DIGIT_H : Nat) : Int)) intensity
        else fb2) =
      (fun fb2 (x : Nat) => applyWrites LED_MATRIX_W LED_MATRIX_H fb2
        (if bmOn bm x y then
          [(x0 + (x : Int), y0 + ((y * LED_MATRIX_H / DIGIT_H : Nat) : Int), intensity)]
         else [])) := by
    intro y
    funext fb2 x
    split <;> rfl
  have hrow : (fun fb1 (y : Nat) =>
      (List.range w).foldl (fun fb2 (x : Nat) =>
        if bmOn bm x y then
          fbSet fb2 (x0 + (x : Int)) (y0 + ((y * LED_MATRIX_H / DIGIT_H : Nat) : Int)) intensity
        else fb2) fb1) =
      (fun fb1 (y : Nat) => applyWrites LED_MATRIX_W LED_MATRIX_H fb1
        ((List.range w).flatMap fun x =>
          if bmOn bm x y then
            [(x0 + (x : Int), y0 + ((y * LED_MATRIX_H / DIGIT_H : Nat) : Int), intensity)]
          else [])) := by
    funext fb1 y
    rw [hb y, foldl_applyWrites]
  rw [hrow, foldl_applyWrites]

/-- C7: morphing a glyph into itself is, at every step and placement,
exactly the static full-intensity blit of that glyph. -/
theorem crossfade_self_eq_solid (g : Bitmap) (step : Nat) (x0 y0 : Int) (w : Nat)
    (fb : List (List Nat)) :
    drawMorph g g step x0 y0 w fb = drawBitmapSolid g x0 y0 w 255 fb := by
  rw [drawMorph_eq_applyWrites, drawBitmapSolid_eq_applyWrites]
  have h : morphWrites g g step x0 y0 w = solidWrites g x0 y0 w 255 := by
    unfold morphWrites solidWrites
    apply congrArg
    funext y
    apply congrArg
    funext x
    cases hon : bmOn g x y <;> simp [morphVal, hon]
  rw [h]

/-- Vertical scaling `y * LED_MATRIX_H / DIGIT_H` is the identity, since
the glyphs are stored at full matrix height (DIGIT_H = LED_MATRIX_H). -/
theorem yScale_id (n : Nat) : n * LED_MATRIX_H / DIGIT_H = n := by
  simp only [LED_MATRIX_H, DIGIT_H]
  omega

theorem writesAt_singleton (e : Write) (x y : Int) :
    writesAt [e] x y = if e.1 = x ∧ e.2.1 = y then [e.2.2] else [] := by
  rw [writesAt_cons, writesAt_nil, List.append_nil]

/-- The writes of `drawMorph` hitting the cell mapped from glyph cell
(x, y): exactly one write of the morph value when it is nonzero, none
otherwise. -/
theorem writesAt_morphWrites (a b : Bitmap) (step : Nat) (x0 y0 : Int) (w x y : Nat)
    (hx : x < w) (hy : y < DIGIT_H) :
    writesAt (morphWrites a b step x0 y0 w) (x0 + (x : Int)) (y0 + (y : Int)) =
      if morphVal (bmOn a x y) (bmOn b x y) step = 0 then []
      else [morphVal (bmOn a x y) (bmOn b x y) step] := by
  unfold morphWrites
  rw [writesAt_flatMap]
  rw [flatMap_eq_of_single _ _ y (List.mem_range.mpr hy) (List.nodup_range _) ?hy2]
  case hy2 =>
    intro y2 hy2 hne
    rw [writesAt_flatMap]
    apply flatMap_eq_nil_of
    intro x2 hx2
    by_cases hv2 : morphVal (bmOn a x2 y2) (bmOn b x2 y2) step = 0
    · rw [if_pos hv2]
      rfl
    · rw [if_neg hv2, writesAt_singleton, if_neg]
      rintro ⟨h1, h2⟩
      dsimp only at h1 h2
      rw [yScale_id] at h2
      exact hne (by omega)
  rw [writesAt_flatMap]
  rw [flatMap_eq_of_single _ _ x (List.mem_range.mpr hx) (List.nodup_range _) ?hx2]
  case hx2 =>
    intro x2 hx2 hne
    by_cases hv2 : morphVal (bmOn a x2 y) (bmOn b x2 y) step = 0
    · rw [if_pos hv2]
      rfl
    · rw [if_neg hv2, writesAt_singleton, if_neg]
      rintro ⟨h1, h2⟩
      dsimp only at h1 h2
      exact hne (by omega)
  by_cases hv : morphVal (bmOn a x y) (bmOn b x y) step = 0
  · rw [if_pos hv, if_pos hv]
    rfl
  · rw [if_neg hv, if_neg hv, writesAt_singleton, if_pos ⟨rfl, by rw [yScale_id]⟩]

/-- C2: for every pair of glyphs, every step, and every glyph cell whose
target lands inside the matrix, the crossfade writes 255 when the cell is
on in both glyphs, `255*(N-step)/N` when only in `a`, `255*step/N` when
only in `b`, and leaves the framebuffer untouched when the computed value
is 0 (in particular when the cell is on in neither glyph); at step 0 the
pixels exclusive to `a` are at 255 while those exclusive to `b` are not
drawn, and at step N exactly the opposite holds. -/
theorem crossfade_morph_cell (a b : Bitmap) (step : Nat) (x0 y0 : Int) (w x y : Nat)
    (fb : List (List Nat)) (hwf : fbWF LED_MATRIX_W LED_MATRIX_H fb)
    (hstep : step ≤ MORPH_STEPS) (hx : x < w) (hy : y < DIGIT_H)
    (hx0 : 0 ≤ x0 + (x : Int)) (hx1 : x0 + (x : Int) < ((LED_MATRIX_W : Nat) : Int))
    (hy0 : 0 ≤ y0 + (y : Int)) (hy1 : y0 + (y : Int) < ((LED_MATRIX_H : Nat) : Int)) :
    (fbGet (drawMorph a b step x0 y0 w fb) (x0 + (x : Int)) (y0 + (y : Int)) =
      if morphVal (bmOn a x y) (bmOn b x y) step = 0
      then fbGet fb (x0 + (x : Int)) (y0 + (y : Int))
      else morphVal (bmOn a x y) (bmOn b x y) step) ∧
    (∀ s : Nat, morphVal true true s = 255) ∧
    morphVal true false step = 255 * (MORPH_STEPS - step) / MORPH_STEPS ∧
    morphVal false true step = 255 * step / MORPH_STEPS ∧
    (∀ s : Nat, morphVal false false s = 0) ∧
    (morphVal true false 0 = 255 ∧ morphVal false true 0 = 0) ∧
    (morphVal false true MORPH_STEPS = 255 ∧ morphVal true false MORPH_STEPS = 0) := by
  refine ⟨?_, fun s => by simp [morphVal], by simp [morphVal], by simp [morphVal],
    fun s => by simp [morphVal], by decide, by decide⟩
  rw [show drawMorph a b step x0 y0 w fb =
    applyWrites LED_MATRIX_W LED_MATRIX_H fb (morphWrites a b step x0 y0 w) from
    drawMorph_eq_applyWrites a b step x0 y0 w fb]
  by_cases hv : morphVal (bmOn a x y) (bmOn b x y) step = 0
  · rw [if_pos hv]
    exact fbGet_applyWrites_of_writesAt_nil _ _ _ _ _ _
      (by rw [writesAt_morphWrites a b step x0 y0 w x y hx hy, if_pos hv])
  · rw [if_neg hv]
    exact fbGet_applyWrites_last _ _ _ _ _ _ _ hwf hx0 hy0 hx1 hy1
      (by rw [writesAt_morphWrites a b step x0 y0 w x y hx hy, if_neg hv]; rfl)

/-- C2 witness: the characterisation applied to glyphs 2 and 3 at step 10,
placement (0,0), glyph cell (0,1), on a cleared framebuffer. -/
theorem crossfade_morph_cell_witness :
    fbGet (drawMorph (DIGITS 2) (DIGITS 3) 10 0 0 DIGIT_W (fbClear 0))
        (0 + ((0 : Nat) : Int)) (0 + ((1 : Nat) : Int)) =
      if morphVal (bmOn (DIGITS 2) 0 1) (bmOn (DIGITS 3) 0 1) 10 = 0
      then fbGet (fbClear 0) (0 + ((0 : Nat) : Int)) (0 + ((1 : Nat) : Int))
      else morphVal (bmOn (DIGITS 2) 0 1) (bmOn (DIGITS 3) 0 1) 10 :=
  (crossfade_morph_cell (DIGITS 2) (DIGITS 3) 10 0 0 DIGIT_W 0 1 (fbClear 0)
    (by decide) (by decide) (by decide) (by decide) (by decide) (by decide)
    (by decide) (by decide)).1

/-! ### Exact IEEE binary32 arithmetic.  The spawn and particle morphs
compute positions and opacities in C `float`.  We embed those values
exactly: a float is represented by the integer `v * 2^40` (every binary32
value reached by this program is a multiple of `2^-40`, having magnitude
in `[2^-32, 2^23]` or being 0).  `f32 num den` rounds the real number
`num/den` (for `den > 0`) to binary32 with round-to-nearest, ties to
even — exactly what IEEE demands of `+`, `-`, `*`, `/`, each of which is
an exactly-rounded operation.  `lroundF` is C `lroundf` (nearest, ties
away from zero); `truncF` is the C float-to-integer conversion
(truncation toward zero). -/

/-- Fuel-driven base-2 logarithm (structurally recursive so that kernel
reduction, hence `decide`, works on it). -/
def ilog2 (fuel n : Nat) : Nat :=
  match fuel with
  | 0 => 0
  | fuel + 1 => if 2 ≤ n then ilog2 fuel (n / 2) + 1 else 0

/-- Floor of the base-2 logarithm of `num/den` for positive inputs with
`num/den ≥ 2^-32`. -/
def f32exp (num den : Int) : Int :=
  (ilog2 256 ((num * 2 ^ 32 / den).toNat) : Int) - 32

/-- Round `num/den` (with `num ≥ 0`, `den > 0`) to the nearest integer,
ties to even. -/
def roundHalfEvenDiv (num den : Int) : Int :=
  let q := num / den
  let r := num % den
  if den < 2 * r then q + 1 else if 2 * r < den then q else if q % 2 = 0 then q else q + 1

/-- Positive branch of binary32 rounding: returns the scaled representation
(`2^40` times the rounded value) of `num/den`. -/
def f32ofPos (num den : Int) : Int :=
  let e := f32exp num den
  let m := roundHalfEvenDiv (num * 2 ^ (23 - e).toNat) den
  m * 2 ^ (e + 17).toNat

/-- Binary32 rounding of the rational `num/den`, `den > 0`. -/
def f32 (num den : Int) : Int :=
  if num = 0 then 0
  else if 0 < num then f32ofPos num den
  else -(f32ofPos (-num) den)

/-- The fixed-point scale of the embedding: representations are value
times `2^40`. -/
def FSCALE : Int := 2 ^ 40

/-- Exact int-to-float conversion (all integers used here are small). -/
def fofInt (n : Int) : Int := f32 n 1

/-- Binary32 addition, subtraction, multiplication and division of
represented values. -/
def fadd (a b : Int) : Int := f32 (a + b) FSCALE

def fsub (a b : Int) : Int := f32 (a - b) FSCALE

def fmul (a b : Int) : Int := f32 (a * b) (FSCALE * FSCALE)

def fdiv (a b : Int) : Int := f32 a b

/-- The representation of the float literal `0.5f`. -/
def fhalf : Int := 2 ^ 39

/-- C `lroundf`: round to nearest, ties away from zero. -/
def lroundF (a : Int) : Int :=
  if 0 ≤ a then (a + 2 ^ 39) / 2 ^ 40 else -((-a + 2 ^ 39) / 2 ^ 40)

/-- C float-to-integer conversion: truncation toward zero. -/
def truncF (a : Int) : Int :=
  if 0 ≤ a then a / 2 ^ 40 else -((-a) / 2 ^ 40)

/-! ### Particle extraction and the spawn morph
(part_002 lines 263-281 and 840-874) -/

/-- `buildPixelsFromBitmap`: the (x, y) coordinates of the on-pixels of a
glyph in row-major scan order.  The C function stores at most `maxOut`
points but returns the full count; callers clamp with `min`/`take 420`,
mirrored at the call sites below. -/
def buildPixelsFromBitmap (bm : Bitmap) (w : Nat) : List (Int × Int) :=
  (List.range DIGIT_H).flatMap fun y =>
    (List.range w).flatMap fun x =>
      if bmOn bm x y then [((x : Int), (y : Int))] else []

/-- `dist2`: squared Euclidean distance between two points. -/
def dist2 (a b : Int × Int) : Int :=
  (a.1 - b.1) * (a.1 - b.1) + (a.2 - b.2) * (a.2 - b.2)

/-- The interpolation factor `t = step / MORPH_STEPS` of
`drawSpawnMorphToTarget`, clamped to [0, 1] as in the source. -/
def spawnT (step : Nat) : Int :=
  let t := fdiv (fofInt step) (fofInt MORPH_STEPS)
  let t := if t < 0 then 0 else t
  if fofInt 1 < t then fofInt 1 else t

/-- The eased progress `te = 1 - (1-t)*(1-t)`. -/
def spawnTe (step : Nat) : Int :=
  fsub (fofInt 1) (fmul (fsub (fofInt 1) (spawnT step)) (fsub (fofInt 1) (spawnT step)))

/-- The spawn origin `sx = (w-1) * 0.5f`. -/
def spawnSx (w : Nat) : Int := fmul (fofInt ((w : Int) - 1)) fhalf

/-- The spawn origin `sy = (DIGIT_H-1) * 0.5f`. -/
def spawnSy : Int := fmul (fofInt ((DIGIT_H : Int) - 1)) fhalf

/-- The rounded x coordinate of a spawn particle:
`lroundf(sx + (tx - sx) * te)`. -/
def spawnX (w step : Nat) (tx : Int) : Int :=
  lroundF (fadd (spawnSx w) (fmul (fsub (fofInt tx) (spawnSx w)) (spawnTe step)))

/-- The rounded y coordinate of a spawn particle:
`lroundf(sy + (ty - sy) * te)`. -/
def spawnY (step : Nat) (ty : Int) : Int :=
  lroundF (fadd spawnSy (fmul (fsub (fofInt ty) spawnSy) (spawnTe step)))

/-- The vertical rescale `(y * LED_MATRIX_H) / DIGIT_H` applied to the
rounded y coordinate (C integer division). -/
def spawnYScaled (step : Nat) (ty : Int) : Int :=
  Int.tdiv (spawnY step ty * ((LED_MATRIX_H : Nat) : Int)) ((DIGIT_H : Nat) : Int)

/-- The fade-in opacity `(uint8_t)(255 * t)`. -/
def spawnAlpha (step : Nat) : Nat := (truncF (fmul (fofInt 255) (spawnT step))).toNat

/-- `drawSpawnMorphToTarget` (part_002 lines 840-874): every on-pixel of
the destination glyph is drawn at the interpolated position between the
glyph center and its final coordinate, at opacity `255 * t`.  The `from`
glyph does not occur among the arguments: the result depends only on the
destination glyph, the step and the placement. -/
def drawSpawnMorphToTarget (toBm : Bitmap) (step : Nat) (x0 y0 : Int) (w : Nat)
    (fb : List (List Nat)) : List (List Nat) :=
  ((buildPixelsFromBitmap toBm w).take 420).foldl (fun fb2 p =>
    fbSet fb2 (x0 + spawnX w step p.1) (y0 + spawnYScaled step p.2) (spawnAlpha step)) fb

/-- The write list emitted by `drawSpawnMorphToTarget`. -/
def spawnWrites (toBm : Bitmap) (step : Nat) (x0 y0 : Int) (w : Nat) : List Write :=
  ((buildPixelsFromBitmap toBm w).take 420).map fun p =>
    (x0 + spawnX w step p.1, y0 + spawnYScaled step p.2, spawnAlpha step)

/-- The claim formula for the eased progress, as the exact rational
`te * 400 = 40*s - s*s` with `t = s/20`. -/
def easeNum (s : Nat) : Int := 40 * s - s * s

/-- The claim formula for the x coordinate: the segment from the center
`(w-1)/2 = 4` to `tx` at progress `te`, rounded to the nearest integer
(ties away from zero; the value is nonnegative). -/
def specSpawnX (s : Nat) (tx : Int) : Int := (1600 + (tx - 4) * easeNum s + 200) / 400

/-- The claim formula for the y coordinate: the segment from the center
`(h-1)/2 = 15.5` to `ty` at progress `te`, rounded to the nearest
integer. -/
def specSpawnY (s : Nat) (ty : Int) : Int := (12400 + (2 * ty - 31) * easeNum s + 400) / 800

theorem foldl_fbSet_map {α : Type} (W H : Nat) (fx fy : α → Int) (fv : α → Nat)
    (l : List α) (fb : List (List Nat)) :
    l.foldl (fun acc a => fbSetW W H acc (fx a) (fy a) (fv a)) fb =
      applyWrites W H fb (l.map fun a => (fx a, fy a, fv a)) := by
  induction l generalizing fb with
  | nil => rfl
  | cons a l ih => exact ih _

theorem drawSpawn_eq_applyWrites (toBm : Bitmap) (step : Nat) (x0 y0 : Int) (w : Nat)
    (fb : List (List Nat)) :
    drawSpawnMorphToTarget toBm step x0 y0 w fb =
      applyWrites LED_MATRIX_W LED_MATRIX_H fb (spawnWrites toBm step x0 y0 w) := by
  unfold drawSpawnMorphToTarget spawnWrites
  generalize (buildPixelsFromBitmap toBm w).take 420 = pts
  induction pts generalizing fb with
  | nil => rfl
  | cons p pts ih => exact ih _

theorem length_flatMap_le {α β : Type} (l : List α) (g : α → List β) (k : Nat)
    (h : ∀ a ∈ l, (g a).length ≤ k) : (l.flatMap g).length ≤ l.length * k := by
  induction l with
  | nil => simp
  | cons a l ih =>
    rw [List.flatMap_cons, List.length_append, List.length_cons, Nat.succ_mul]
    have h1 := h a (List.mem_cons_self a l)
    have h2 := ih fun a ha => h a (List.mem_cons_of_mem _ ha)
    omega

/-- A glyph of width at most 13 has at most `13 * 32 = 416 ≤ 420`
on-pixels, so the 420-point buffers never truncate. -/
theorem buildPixels_length_le (bm : Bitmap) (w : Nat) :
    (buildPixelsFromBitmap bm w).length ≤ 32 * w := by
  unfold buildPixelsFromBitmap
  have h := length_flatMap_le (List.range DIGIT_H)
    (fun y => (List.range w).flatMap fun x =>
      if bmOn bm x y then [((x : Int), (y : Int))] else []) w ?_
  · simpa [DIGIT_H, LED_MATRIX_H] using h
  · intro y hy
    have h2 := length_flatMap_le (List.range w)
      (fun x => if bmOn bm x y then [((x : Int), (y : Int))] else []) 1 ?_
    · simpa using h2
    · intro x hx
      by_cases hon : bmOn bm x y <;> simp [hon]

/-! ### Clock state and frame composition (part_002 lines 788-942) -/

/-- The mutable clock state of part_002: `lastSecond`, the previous and
current formatted time strings (`char[7]`, six significant characters)
and the morph step counter. -/
structure ClockState where
  lastSecond : Nat
  prevT : List Char
  currT : List Char
  morphStep : Nat
  deriving DecidableEq

/-- The `digitIdx` lambda of `drawFrame`: digit characters map to their
value, any other character maps to 0. -/
def digitIdx (c : Char) : Nat :=
  if ('0' : Char) ≤ c ∧ c ≤ ('9' : Char) then c.toNat - ('0' : Char).toNat else 0

/-- The `int step = morphStep; if (step > MORPH_STEPS) step = MORPH_STEPS`
clamp at the top of `drawFrame`. -/
def clampedStep (st : ClockState) : Nat :=
  if st.morphStep > MORPH_STEPS then MORPH_STEPS else st.morphStep

/-- The `drawDigit` lambda of `drawFrame`: a changed digit still mid-morph
is drawn with the spawn morph of the current glyph only; otherwise the
current glyph is blitted solid at 255. -/
def drawDigitAt (st : ClockState) (pos : Nat) (xx : Int)
    (fb : List (List Nat)) : List (List Nat) :=
  if st.currT.getD pos '-' ≠ st.prevT.getD pos '-' ∧ clampedStep st < MORPH_STEPS then
    drawSpawnMorphToTarget (DIGITS (digitIdx (st.currT.getD pos '-')))
      (clampedStep st) xx 0 DIGIT_W fb
  else
    drawBitmapSolid (DIGITS (digitIdx (st.currT.getD pos '-'))) xx 0 DIGIT_W 255 fb

/-- `drawFrame` (part_002 lines 881-942): clear, then draw HH:MM:SS with
1-pixel gaps, colons drawn solid, centered.  The final
`if (morphStep < MORPH_STEPS) morphStep++` is modelled separately by
`advanceMorphStep`. -/
def drawFrame (st : ClockState) : List (List Nat) :=
  let fb := fbClear 0
  let digitW := DIGIT_W
  let colonW := COLON_W
  let gap := DIGIT_GAP
  let totalW := 6 * digitW + 2 * colonW + 5 * gap
  let x0 : Int := Int.tdiv ((LED_MATRIX_W : Int) - (totalW : Int)) 2
  let x0 := if x0 < 0 then 0 else x0
  let fb := drawDigitAt st 0 x0 fb
  let fb := drawDigitAt st 1 (x0 + (digitW : Int) + (gap : Int)) fb
  let fb := drawBitmapSolid COLON (x0 + 2 * (digitW : Int) + (gap : Int)) 0 colonW 255 fb
  let fb := drawDigitAt st 2
    (x0 + 2 * (digitW : Int) + (gap : Int) + (colonW : Int) + (gap : Int)) fb
  let fb := drawDigitAt st 3
    (x0 + 3 * (digitW : Int) + 2 * (gap : Int) + (colonW : Int) + (gap : Int)) fb
  let fb := drawBitmapSolid COLON
    (x0 + 4 * (digitW : Int) + 2 * (gap : Int) + (colonW : Int) + (gap : Int)) 0 colonW 255 fb
  let fb := drawDigitAt st 4
    (x0 + 4 * (digitW : Int) + 2 * (gap : Int) + 2 * (colonW : Int) + 2 * (gap : Int)) fb
  let fb := drawDigitAt st 5
    (x0 + 5 * (digitW : Int) + 3 * (gap : Int) + 2 * (colonW : Int) + 2 * (gap : Int)) fb
  fb

/-- The `if (morphStep < MORPH_STEPS) morphStep++` at the end of
`drawFrame`. -/
def advanceMorphStep (st : ClockState) : ClockState :=
  if st.morphStep < MORPH_STEPS then
    { st with morphStep := st.morphStep + 1 }
  else st

/-- The state before the first successful time update: both strings hold
the initializer `"------"`, `lastSecond = 0`, and `morphStep` starts at
`MORPH_STEPS` so no morph is in progress. -/
def initialClockState : ClockState :=
  ⟨0, "------".toList, "------".toList, MORPH_STEPS⟩

/-- A frame in which every position takes the static path: previous and
current strings agree and the morph is finished. -/
def staticTimeRender (t : List Char) : List (List Nat) :=
  drawFrame ⟨0, t, t, MORPH_STEPS⟩

/-! ### Write-list view of a whole frame.  Evaluating a frame by forcing
the 1400-odd nested `fbSet` applications overflows any reducer, so frame
contents are read off the per-operation write lists instead: a cell holds
the last write that hit it, and the eight drawing operations of
`drawFrame` touch pairwise disjoint column ranges. -/

/-- The write list of one `drawDigit` call. -/
def drawDigitWrites (st : ClockState) (pos : Nat) (xx : Int) : List Write :=
  if st.currT.getD pos '-' ≠ st.prevT.getD pos '-' ∧ clampedStep st < MORPH_STEPS then
    spawnWrites (DIGITS (digitIdx (st.currT.getD pos '-'))) (clampedStep st) xx 0 DIGIT_W
  else
    solidWrites (DIGITS (digitIdx (st.currT.getD pos '-'))) xx 0 DIGIT_W 255

theorem drawDigitAt_eq_applyWrites (st : ClockState) (pos : Nat) (xx : Int)
    (fb : List (List Nat)) :
    drawDigitAt st pos xx fb =
      applyWrites LED_MATRIX_W LED_MATRIX_H fb (drawDigitWrites st pos xx) := by
  unfold drawDigitAt drawDigitWrites
  split
  · exact drawSpawn_eq_applyWrites _ _ _ _ _ _
  · exact drawBitmapSolid_eq_applyWrites _ _ _ _ _ _

/-- The x offsets of the eight drawing operations of `drawFrame`
(six digits and two colons), after the centering `x0 = 0`. -/
def frameX0 : Int :=
  let totalW := 6 * DIGIT_W + 2 * COLON_W + 5 * DIGIT_GAP
  let x0 : Int := Int.tdiv ((LED_MATRIX_W : Int) - (totalW : Int)) 2
  if x0 < 0 then 0 else x0

/-- The eight write lists of one frame, in drawing order. -/
def frameWriteLists (st : ClockState) : List (List Write) :=
  let digitW := DIGIT_W
  let colonW := COLON_W
  let gap := DIGIT_GAP
  let x0 := frameX0
  [drawDigitWrites st 0 x0,
   drawDigitWrites st 1 (x0 + (digitW : Int) + (gap : Int)),
   solidWrites COLON (x0 + 2 * (digitW : Int) + (gap : Int)) 0 colonW 255,
   drawDigitWrites st 2
     (x0 + 2 * (digitW : Int) + (gap : Int) + (colonW : Int) + (gap : Int)),
   drawDigitWrites st 3
     (x0 + 3 * (digitW : Int) + 2 * (gap : Int) + (colonW : Int) + (gap : Int)),
   solidWrites COLON
     (x0 + 4 * (digitW : Int) + 2 * (gap : Int) + (colonW : Int) + (gap : Int)) 0 colonW 255,
   drawDigitWrites st 4
     (x0 + 4 * (digitW : Int) + 2 * (gap : Int) + 2 * (colonW : Int) + 2 * (gap : Int)),
   drawDigitWrites st 5
     (x0 + 5 * (digitW : Int) + 3 * (gap : Int) + 2 * (colonW : Int) + 2 * (gap : Int))]

/-- All writes of one frame. -/
def frameWrites (st : ClockState) : List Write :=
  (frameWriteLists st).flatMap fun l => l

theorem drawFrame_eq_applyWrites (st : ClockState) :
    drawFrame st = applyWrites LED_MATRIX_W LED_MATRIX_H (fbClear 0) (frameWrites st) := by
  unfold drawFrame frameWrites frameWriteLists frameX0
  dsimp only
  rw [List.flatMap_cons, List.flatMap_cons, List.flatMap_cons, List.flatMap_cons,
    List.flatMap_cons, List.flatMap_cons, List.flatMap_cons, List.flatMap_cons,
    List.flatMap_nil, List.append_nil]
  rw [applyWrites_append, applyWrites_append, applyWrites_append, applyWrites_append,
    applyWrites_append, applyWrites_append, applyWrites_append]
  rw [drawDigitAt_eq_applyWrites, drawDigitAt_eq_applyWrites, drawDigitAt_eq_applyWrites,
    drawDigitAt_eq_applyWrites, drawDigitAt_eq_applyWrites, drawDigitAt_eq_applyWrites,
    drawBitmapSolid_eq_applyWrites, drawBitmapSolid_eq_applyWrites]

/-- Shallow per-cell readout of a frame: the last write hitting the cell,
or the cleared value 0. -/
def frameCell (st : ClockState) (x y : Int) : Nat :=
  (((frameWriteLists st).flatMap fun l => writesAt l x y).getLast?).getD 0

theorem fbGetW_fbClearW (W H v : Nat) (x y : Int)
    (hx0 : 0 ≤ x) (hy0 : 0 ≤ y) (hx : x < (W : Int)) (hy : y < (H : Int)) :
    fbGetW W H (fbClearW W H v) x y = v := by
  unfold fbGetW
  rw [if_neg (by omega)]
  have hrow : (fbClearW W H v).getD y.toNat [] = List.replicate W v := by
    unfold fbClearW
    rw [List.getD_eq_getElem?_getD, List.getElem?_replicate_of_lt (by omega), Option.getD_some]
  rw [hrow, List.getD_eq_getElem?_getD, List.getElem?_replicate_of_lt (by omega),
    Option.getD_some]

theorem fbGet_applyWrites_getD (W H : Nat) (fb : List (List Nat)) (l : List Write)
    (x y : Int) (hwf : fbWF W H fb)
    (hx0 : 0 ≤ x) (hy0 : 0 ≤ y) (hx : x < (W : Int)) (hy : y < (H : Int)) :
    fbGetW W H (applyWrites W H fb l) x y =
      ((writesAt l x y).getLast?).getD (fbGetW W H fb x y) := by
  rcases hlast : (writesAt l x y).getLast? with _ | v
  · rw [Option.getD_none]
    exact fbGet_applyWrites_of_writesAt_nil _ _ _ _ _ _ (List.getLast?_eq_none_iff.mp hlast)
  · rw [Option.getD_some]
    exact fbGet_applyWrites_last _ _ _ _ _ _ _ hwf hx0 hy0 hx hy hlast

/-- In range, a frame cell reads exactly its last write (or 0). -/
theorem fbGet_drawFrame (st : ClockState) (x y : Int)
    (hx0 : 0 ≤ x) (hy0 : 0 ≤ y)
    (hx : x < ((LED_MATRIX_W : Nat) : Int)) (hy : y < ((LED_MATRIX_H : Nat) : Int)) :
    fbGet (drawFrame st) x y = frameCell st x y := by
  rw [drawFrame_eq_applyWrites]
  unfold fbGet fbClear
  rw [fbGet_applyWrites_getD _ _ _ _ _ _ (fbWF_fbClearW _ _ _) hx0 hy0 hx hy]
  rw [fbGetW_fbClearW _ _ _ _ _ hx0 hy0 hx hy]
  unfold frameCell frameWrites
  rw [writesAt_flatMap]

/-- Two well-formed framebuffers with the same bounds-checked reads are
equal. -/
theorem fb_ext (W H : Nat) (fb1 fb2 : List (List Nat))
    (h1 : fbWF W H fb1) (h2 : fbWF W H fb2)
    (h : ∀ x y : Int, fbGetW W H fb1 x y = fbGetW W H fb2 x y) : fb1 = fb2 := by
  obtain ⟨hl1, hr1⟩ := h1
  obtain ⟨hl2, hr2⟩ := h2
  apply List.ext_getElem (by omega)
  intro i hi1 hi2
  have hW1 : (fb1.getD i []).length = W := hr1 i (by omega)
  have hW2 : (fb2.getD i []).length = W := hr2 i (by omega)
  have hrow1 : fb1.getD i [] = fb1[i] := List.getD_eq_getElem fb1 [] hi1
  have hrow2 : fb2.getD i [] = fb2[i] := List.getD_eq_getElem fb2 [] hi2
  apply List.ext_getElem (by rw [← hrow1, ← hrow2, hW1, hW2])
  intro j hj1 hj2
  have hx := h (j : Int) (i : Int)
  unfold fbGetW at hx
  rw [if_neg (by rw [← hrow1, hW1] at hj1; omega),
    if_neg (by rw [← hrow1, hW1] at hj1; omega)] at hx
  simp only [Int.toNat_natCast] at hx
  rw [hrow1, hrow2] at hx
  rwa [List.getD_eq_getElem _ 0 hj1, List.getD_eq_getElem _ 0 hj2] at hx

theorem fbWF_drawFrame (st : ClockState) :
    fbWF LED_MATRIX_W LED_MATRIX_H (drawFrame st) := by
  rw [drawFrame_eq_applyWrites]
  exact fbWF_applyWrites _ _ _ _ (fbWF_fbClearW _ _ _)

/-- Frames agreeing cell by cell (through the shallow readout) are
equal. -/
theorem drawFrame_ext (st1 st2 : ClockState)
    (h : ∀ (a : Fin LED_MATRIX_W) (b : Fin LED_MATRIX_H),
      frameCell st1 ((a : Nat) : Int) ((b : Nat) : Int) =
        frameCell st2 ((a : Nat) : Int) ((b : Nat) : Int)) :
    drawFrame st1 = drawFrame st2 := by
  apply fb_ext LED_MATRIX_W LED_MATRIX_H _ _ (fbWF_drawFrame st1) (fbWF_drawFrame st2)
  intro x y
  by_cases hout : x < 0 ∨ y < 0 ∨ ((LED_MATRIX_W : Nat) : Int) ≤ x ∨
    ((LED_MATRIX_H : Nat) : Int) ≤ y
  · rw [fbGetW_out _ _ _ _ _ hout, fbGetW_out _ _ _ _ _ hout]
  · push_neg at hout
    obtain ⟨hx0, hy0, hx, hy⟩ := hout
    have e1 := fbGet_drawFrame st1 x y hx0 hy0 hx hy
    have e2 := fbGet_drawFrame st2 x y hx0 hy0 hx hy
    unfold fbGet at e1 e2
    rw [e1, e2]
    have hxx : x = ((x.toNat : Nat) : Int) := by omega
    have hyy : y = ((y.toNat : Nat) : Int) := by omega
    rw [hxx, hyy]
    exact h ⟨x.toNat, by omega⟩ ⟨y.toNat, by omega⟩

/-- Reading the six-dash initializer string at any position yields a
dash. -/
theorem dashes_getD (pos : Nat) : "------".toList.getD pos '-' = '-' := by
  rcases pos with _ | _ | _ | _ | _ | _ | n
  · rfl
  · rfl
  · rfl
  · rfl
  · rfl
  · rfl
  · rw [List.getD_eq_getElem?_getD, List.getElem?_eq_none_iff.mpr (by simp)]
    rfl

/-- Every position of the string `"000000"` (or its out-of-range default)
maps to glyph index 0. -/
theorem zeros_getD_digitIdx (pos : Nat) : digitIdx ("000000".toList.getD pos '-') = 0 := by
  rcases pos with _ | _ | _ | _ | _ | _ | n
  · decide
  · decide
  · decide
  · decide
  · decide
  · decide
  · rw [List.getD_eq_getElem?_getD, List.getElem?_eq_none_iff.mpr (by simp)]
    decide

theorem drawDigitAt_initial (pos : Nat) (xx : Int) (fb : List (List Nat)) :
    drawDigitAt initialClockState pos xx fb = drawBitmapSolid (DIGITS 0) xx 0 DIGIT_W 255 fb := by
  unfold drawDigitAt
  rw [if_neg fun hc => absurd hc.2 (by decide)]
  rw [show digitIdx (initialClockState.currT.getD pos '-') = 0 by
    show digitIdx ("------".toList.getD pos '-') = 0
    rw [dashes_getD]
    decide]

theorem drawDigitAt_zeros (pos : Nat) (xx : Int) (fb : List (List Nat)) :
    drawDigitAt ⟨0, "000000".toList, "000000".toList, MORPH_STEPS⟩ pos xx fb =
      drawBitmapSolid (DIGITS 0) xx 0 DIGIT_W 255 fb := by
  unfold drawDigitAt
  rw [if_neg fun hc => absurd hc.2 (by decide)]
  rw [show digitIdx (("000000".toList).getD pos '-') = 0 from zeros_getD_digitIdx pos]

set_option maxRecDepth 40000 in
set_option maxHeartbeats 2000000 in
/-- C10: any non-digit character maps to glyph index 0, and the initial
`"------"` frame therefore renders as the full-intensity static frame of
`"000000"` — visibly digit zeros (cell (0,1) of the first digit box reads
255), not blank glyphs. -/
theorem nondigit_renders_zero :
    (∀ c : Char, ¬(('0' : Char) ≤ c ∧ c ≤ ('9' : Char)) → digitIdx c = 0) ∧
    drawFrame initialClockState = staticTimeRender ("000000".toList) ∧
    fbGet (drawFrame initialClockState) 0 1 = 255 := by
  refine ⟨?_, ?_, ?_⟩
  · intro c h
    simp [digitIdx, h]
  · unfold staticTimeRender drawFrame
    simp only [drawDigitAt_initial, drawDigitAt_zeros]
  · rw [fbGet_drawFrame _ _ _ (by decide) (by decide) (by decide) (by decide)]
    decide

/-- C10 witness: the dash character (the initializer content) is not a
digit and maps to glyph index 0. -/
theorem nondigit_renders_zero_witness : digitIdx '-' = 0 :=
  nondigit_renders_zero.1 '-' (by decide)

set_option maxRecDepth 40000 in
set_option maxHeartbeats 1000000 in
/-- C9 counterexample: in the current composer (part_002) the colon is
drawn solid on every frame; with `lastSecond = 0` (an even second) the
first colon dot cell (19, 10) still reads 255, so the colon column range
is not cleared on even seconds. -/
theorem colon_blink_missing_in_current :
    (⟨0, "130000".toList, "130000".toList, MORPH_STEPS⟩ : ClockState).lastSecond % 2 = 0 ∧
    fbGet (drawFrame ⟨0, "130000".toList, "130000".toList, MORPH_STEPS⟩) 19 10 = 255 := by
  refine ⟨by decide, ?_⟩
  rw [fbGet_drawFrame _ _ _ (by decide) (by decide) (by decide) (by decide)]
  decide

set_option maxRecDepth 40000 in
set_option maxHeartbeats 10000000 in
/-- C4: the spawn morph emits exactly one write per on-pixel of the
destination glyph (the 420-point buffer never truncates for glyph widths
up to 13); each write lands at the binary32-rounded point of the segment
from the glyph center `((w-1)/2, (h-1)/2) = (4, 15.5)` to the pixel at
eased progress `te = 1-(1-t)^2`, `t = step/N`, rounded to the nearest
integer — proved equal to the exact rational formula (`specSpawnX`,
`specSpawnY`) on the whole domain — at opacity `⌊255*step/N⌋`; and the
previous glyph is never consulted: two states with the same current
string, the same step, and the same changed/unchanged pattern render
identical frames. -/
theorem spawn_morph_characterised :
    (∀ (toBm : Bitmap) (step : Nat) (x0 y0 : Int) (w : Nat) (fb : List (List Nat)),
      drawSpawnMorphToTarget toBm step x0 y0 w fb =
        applyWrites LED_MATRIX_W LED_MATRIX_H fb (spawnWrites toBm step x0 y0 w)) ∧
    (∀ (toBm : Bitmap) (step : Nat) (x0 y0 : Int) (w : Nat), w ≤ 13 →
      spawnWrites toBm step x0 y0 w =
        (buildPixelsFromBitmap toBm w).map fun p =>
          (x0 + spawnX w step p.1, y0 + spawnYScaled step p.2, spawnAlpha step)) ∧
    (∀ (s : Fin (MORPH_STEPS + 1)) (tx : Fin DIGIT_W),
      spawnX DIGIT_W s ((tx : Nat) : Int) = specSpawnX s ((tx : Nat) : Int)) ∧
    (∀ (s : Fin (MORPH_STEPS + 1)) (ty : Fin DIGIT_H),
      spawnY s ((ty : Nat) : Int) = specSpawnY s ((ty : Nat) : Int)) ∧
    (∀ s : Fin (MORPH_STEPS + 1), spawnAlpha s = 255 * (s : Nat) / MORPH_STEPS) ∧
    (∀ st1 st2 : ClockState, st1.currT = st2.currT → st1.morphStep = st2.morphStep →
      (∀ pos : Nat, (st1.currT.getD pos '-' = st1.prevT.getD pos '-') ↔
        (st2.currT.getD pos '-' = st2.prevT.getD pos '-')) →
      drawFrame st1 = drawFrame st2) := by
  refine ⟨drawSpawn_eq_applyWrites, ?_, by decide, by decide, by decide, ?_⟩
  · intro toBm step x0 y0 w hw
    unfold spawnWrites
    rw [List.take_of_length_le]
    have h := buildPixels_length_le toBm w
    omega
  · intro st1 st2 hcurr hms h
    have hd : ∀ (pos : Nat) (xx : Int) (fb : List (List Nat)),
        drawDigitAt st1 pos xx fb = drawDigitAt st2 pos xx fb := by
      intro pos xx fb
      unfold drawDigitAt
      have hcs : clampedStep st1 = clampedStep st2 := by
        unfold clampedStep
        rw [hms]
      rw [hcurr, hcs]
      have h2 := h pos
      rw [hcurr] at h2
      by_cases hb : st2.currT.getD pos '-' = st2.prevT.getD pos '-'
      · rw [if_neg fun hcon => hcon.1 (h2.mpr hb), if_neg fun hcon => hcon.1 hb]
      · have hb1 : st2.currT.getD pos '-' ≠ st1.prevT.getD pos '-' := fun e => hb (h2.mp e)
        by_cases hs : clampedStep st2 < MORPH_STEPS
        · rw [if_pos ⟨hb1, hs⟩, if_pos ⟨hb, hs⟩]
        · rw [if_neg fun hcon => hs hcon.2, if_neg fun hcon => hs hcon.2]
    unfold drawFrame
    simp only [hd]

/-- C4 witness: the write-list form instantiated for glyph 3 at step 10,
placed at the origin. -/
theorem spawn_morph_characterised_witness :
    spawnWrites (DIGITS 3) 10 0 0 DIGIT_W =
      (buildPixelsFromBitmap (DIGITS 3) DIGIT_W).map fun p =>
        (0 + spawnX DIGIT_W 10 p.1, 0 + spawnYScaled 10 p.2, spawnAlpha 10) :=
  spawn_morph_characterised.2.1 (DIGITS 3) 10 0 0 DIGIT_W (by decide)

/-! ### Region reasoning for C8.  The eight drawing operations of a frame
touch pairwise disjoint column ranges, so the content of a digit box is
decided by that digit's own write list alone. -/

/-- Per-cell readout of a single write list. -/
def cellOf (l : List Write) (x y : Int) : Nat :=
  ((writesAt l x y).getLast?).getD 0

theorem writesAt_eq_nil_of (l : List Write) (x y : Int)
    (h : ∀ e ∈ l, ¬(e.1 = x ∧ e.2.1 = y)) : writesAt l x y = [] := by
  unfold writesAt
  apply List.filterMap_eq_nil_iff.mpr
  intro e he
  rw [if_neg (h e he)]

theorem mem_of_writesAt (l : List Write) (x y : Int) (v : Nat)
    (hv : v ∈ writesAt l x y) : ∃ e ∈ l, e.2.2 = v := by
  unfold writesAt at hv
  obtain ⟨e, he, heq⟩ := List.mem_filterMap.mp hv
  refine ⟨e, he, ?_⟩
  by_cases hc : e.1 = x ∧ e.2.1 = y
  · rw [if_pos hc] at heq
    exact Option.some_injective _ heq
  · rw [if_neg hc] at heq
    exact absurd heq (by simp)

/-- Every write of `solidWrites` lies in the columns `[x0, x0+w)` and
carries the blit intensity. -/
theorem solidWrites_mem (bm : Bitmap) (x0 y0 : Int) (w v : Nat) (e : Write)
    (he : e ∈ solidWrites bm x0 y0 w v) :
    (∃ x2 : Nat, x2 < w ∧ e.1 = x0 + (x2 : Int)) ∧ e.2.2 = v := by
  unfold solidWrites at he
  obtain ⟨y2, hy2, he2⟩ := List.mem_flatMap.mp he
  obtain ⟨x2, hx2, he3⟩ := List.mem_flatMap.mp he2
  by_cases hon : bmOn bm x2 y2
  · rw [if_pos hon] at he3
    simp at he3
    subst he3
    exact ⟨⟨x2, List.mem_range.mp hx2, rfl⟩, rfl⟩
  · rw [if_neg hon] at he3
    simp at he3

/-- On-pixels extracted from a glyph lie inside the `w × 32` box. -/
theorem buildPixels_mem (bm : Bitmap) (w : Nat) (p : Int × Int)
    (hp : p ∈ buildPixelsFromBitmap bm w) :
    0 ≤ p.1 ∧ p.1 < (w : Int) ∧ 0 ≤ p.2 ∧ p.2 < ((DIGIT_H : Nat) : Int) := by
  unfold buildPixelsFromBitmap at hp
  obtain ⟨y2, hy2, hp2⟩ := List.mem_flatMap.mp hp
  obtain ⟨x2, hx2, hp3⟩ := List.mem_flatMap.mp hp2
  by_cases hon : bmOn bm x2 y2
  · rw [if_pos hon] at hp3
    simp at hp3
    subst hp3
    have h1 := List.mem_range.mp hx2
    have h2 := List.mem_range.mp hy2
    refine ⟨?_, ?_, ?_, ?_⟩
    · exact Int.natCast_nonneg x2
    · show ((x2 : Nat) : Int) < ((w : Nat) : Int)
      exact_mod_cast h1
    · exact Int.natCast_nonneg y2
    · show ((y2 : Nat) : Int) < ((DIGIT_H : Nat) : Int)
      exact_mod_cast h2
  · rw [if_neg hon] at hp3
    simp at hp3

/-- Every write of `spawnWrites` lies at some interpolated column
`x0 + spawnX w step tx` with `tx` inside the glyph box, and carries the
fade-in opacity. -/
theorem spawnWrites_mem (toBm : Bitmap) (step : Nat) (x0 y0 : Int) (w : Nat) (e : Write)
    (he : e ∈ spawnWrites toBm step x0 y0 w) :
    (∃ tx : Int, 0 ≤ tx ∧ tx < (w : Int) ∧ e.1 = x0 + spawnX w step tx) ∧
      e.2.2 = spawnAlpha step := by
  unfold spawnWrites at he
  obtain ⟨p, hp, he2⟩ := List.mem_map.mp he
  have hb := buildPixels_mem toBm w p (List.mem_of_mem_take hp)
  subst he2
  exact ⟨⟨p.1, hb.1, hb.2.1, rfl⟩, rfl⟩

set_option maxRecDepth 40000 in
set_option maxHeartbeats 1000000 in
/-- The spawn columns at step 10 with glyph width 9 stay within
`[x0+1, x0+7]`. -/
theorem spawnX_bounds10 (tx : Int) (h0 : 0 ≤ tx) (h9 : tx < ((DIGIT_W : Nat) : Int)) :
    1 ≤ spawnX DIGIT_W 10 tx ∧ spawnX DIGIT_W 10 tx ≤ 7 := by
  have h : ∀ t : Fin DIGIT_W,
      1 ≤ spawnX DIGIT_W 10 ((t : Nat) : Int) ∧ spawnX DIGIT_W 10 ((t : Nat) : Int) ≤ 7 := by
    decide
  have h2 := h ⟨tx.toNat, by omega⟩
  rwa [show ((tx.toNat : Nat) : Int) = tx from by omega] at h2

theorem writesAt_solid_nil (bm : Bitmap) (x0 y0 : Int) (w v : Nat) (x y : Int)
    (h : x < x0 ∨ x0 + (w : Int) ≤ x) : writesAt (solidWrites bm x0 y0 w v) x y = [] := by
  apply writesAt_eq_nil_of
  rintro e he ⟨h1, h2⟩
  obtain ⟨⟨x2, hx2, he1⟩, _⟩ := solidWrites_mem bm x0 y0 w v e he
  omega

theorem writesAt_spawn10_nil (toBm : Bitmap) (x0 y0 : Int) (x y : Int)
    (h : x < x0 + 1 ∨ x0 + 8 ≤ x) :
    writesAt (spawnWrites toBm 10 x0 y0 DIGIT_W) x y = [] := by
  apply writesAt_eq_nil_of
  rintro e he ⟨h1, h2⟩
  obtain ⟨⟨tx, ht0, ht9, he1⟩, _⟩ := spawnWrites_mem toBm 10 x0 y0 DIGIT_W e he
  have hb := spawnX_bounds10 tx ht0 ht9
  omega

/-- Every value appearing in `cellOf (solidWrites bm x0 y0 w v)` is 0 or
the blit intensity. -/
theorem cellOf_solid_values (bm : Bitmap) (x0 y0 : Int) (w v : Nat) (x y : Int) :
    cellOf (solidWrites bm x0 y0 w v) x y = 0 ∨
      cellOf (solidWrites bm x0 y0 w v) x y = v := by
  unfold cellOf
  rcases hlast : (writesAt (solidWrites bm x0 y0 w v) x y).getLast? with _ | u
  · left
    rfl
  · right
    rw [Option.getD_some]
    obtain ⟨e, he, hev⟩ := mem_of_writesAt _ _ _ _ (List.mem_of_mem_getLast? hlast)
    rw [← hev, (solidWrites_mem bm x0 y0 w v e he).2]

/-- The clock state after the "12:59:59" → "13:00:00" rollover, with the
morph counter at `ms`. -/
def rolloverState (ms : Nat) : ClockState :=
  ⟨0, "125959".toList, "130000".toList, ms⟩

/-- At step 10 of the rollover, position 0 ('1', unchanged) blits solid
while positions 1-5 (changed) run the spawn morph; the colons stay
solid. -/
theorem rollover10_lists :
    frameWriteLists (rolloverState 10) =
      [solidWrites (DIGITS 1) 0 0 DIGIT_W 255,
       spawnWrites (DIGITS 3) 10 10 0 DIGIT_W,
       solidWrites COLON 19 0 COLON_W 255,
       spawnWrites (DIGITS 0) 10 22 0 DIGIT_W,
       spawnWrites (DIGITS 0) 10 32 0 DIGIT_W,
       solidWrites COLON 41 0 COLON_W 255,
       spawnWrites (DIGITS 0) 10 44 0 DIGIT_W,
       spawnWrites (DIGITS 0) 10 54 0 DIGIT_W] := by
  have e0 : ∀ xx : Int, drawDigitWrites (rolloverState 10) 0 xx =
      solidWrites (DIGITS 1) xx 0 DIGIT_W 255 := by
    intro xx
    unfold drawDigitWrites
    rw [if_neg (by decide)]
    rfl
  have e1 : ∀ xx : Int, drawDigitWrites (rolloverState 10) 1 xx =
      spawnWrites (DIGITS 3) 10 xx 0 DIGIT_W := by
    intro xx
    unfold drawDigitWrites
    rw [if_pos (by decide)]
    rfl
  have e2 : ∀ xx : Int, drawDigitWrites (rolloverState 10) 2 xx =
      spawnWrites (DIGITS 0) 10 xx 0 DIGIT_W := by
    intro xx
    unfold drawDigitWrites
    rw [if_pos (by decide)]
    rfl
  have e3 : ∀ xx : Int, drawDigitWrites (rolloverState 10) 3 xx =
      spawnWrites (DIGITS 0) 10 xx 0 DIGIT_W := by
    intro xx
    unfold drawDigitWrites
    rw [if_pos (by decide)]
    rfl
  have e4 : ∀ xx : Int, drawDigitWrites (rolloverState 10) 4 xx =
      spawnWrites (DIGITS 0) 10 xx 0 DIGIT_W := by
    intro xx
    unfold drawDigitWrites
    rw [if_pos (by decide)]
    rfl
  have e5 : ∀ xx : Int, drawDigitWrites (rolloverState 10) 5 xx =
      spawnWrites (DIGITS 0) 10 xx 0 DIGIT_W := by
    intro xx
    unfold drawDigitWrites
    rw [if_pos (by decide)]
    rfl
  unfold frameWriteLists
  dsimp only
  rw [show frameX0 = (0 : Int) from by decide]
  rw [e0, e1, e2, e3, e4, e5]
  norm_num [DIGIT_W, COLON_W, DIGIT_GAP]

/-- Region readout for the step-10 rollover frame: each digit box is
decided by the write list of its own drawing operation. -/
theorem rollover10_region (x y : Int) :
    (0 ≤ x → x ≤ 8 →
      frameCell (rolloverState 10) x y = cellOf (solidWrites (DIGITS 1) 0 0 DIGIT_W 255) x y) ∧
    (9 ≤ x → x ≤ 18 →
      frameCell (rolloverState 10) x y = cellOf (spawnWrites (DIGITS 3) 10 10 0 DIGIT_W) x y) ∧
    (21 ≤ x → x ≤ 30 →
      frameCell (rolloverState 10) x y = cellOf (spawnWrites (DIGITS 0) 10 22 0 DIGIT_W) x y) ∧
    (31 ≤ x → x ≤ 40 →
      frameCell (rolloverState 10) x y = cellOf (spawnWrites (DIGITS 0) 10 32 0 DIGIT_W) x y) ∧
    (43 ≤ x → x ≤ 52 →
      frameCell (rolloverState 10) x y = cellOf (spawnWrites (DIGITS 0) 10 44 0 DIGIT_W) x y) ∧
    (53 ≤ x →
      frameCell (rolloverState 10) x y = cellOf (spawnWrites (DIGITS 0) 10 54 0 DIGIT_W) x y) := by
  have hw : ((DIGIT_W : Nat) : Int) = 9 := by decide
  have hc : ((COLON_W : Nat) : Int) = 2 := by decide
  unfold frameCell
  rw [rollover10_lists]
  rw [List.flatMap_cons, List.flatMap_cons, List.flatMap_cons, List.flatMap_cons,
    List.flatMap_cons, List.flatMap_cons, List.flatMap_cons, List.flatMap_cons,
    List.flatMap_nil]
  refine ⟨?_, ?_, ?_, ?_, ?_, ?_⟩ <;> intro h1
  · intro h2
    rw [writesAt_spawn10_nil _ 10 _ _ _ (by omega),
      writesAt_solid_nil _ 19 _ _ _ _ _ (by omega),
      writesAt_spawn10_nil _ 22 _ _ _ (by omega),
      writesAt_spawn10_nil _ 32 _ _ _ (by omega),
      writesAt_solid_nil _ 41 _ _ _ _ _ (by omega),
      writesAt_spawn10_nil _ 44 _ _ _ (by omega),
      writesAt_spawn10_nil _ 54 _ _ _ (by omega)]
    simp only [List.append_nil, List.nil_append]
    rfl
  · intro h2
    rw [writesAt_solid_nil _ 0 _ _ _ _ _ (by omega),
      writesAt_solid_nil _ 19 _ _ _ _ _ (by omega),
      writesAt_spawn10_nil _ 22 _ _ _ (by omega),
      writesAt_spawn10_nil _ 32 _ _ _ (by omega),
      writesAt_solid_nil _ 41 _ _ _ _ _ (by omega),
      writesAt_spawn10_nil _ 44 _ _ _ (by omega),
      writesAt_spawn10_nil _ 54 _ _ _ (by omega)]
    simp only [List.append_nil, List.nil_append]
    rfl
  · intro h2
    rw [writesAt_solid_nil _ 0 _ _ _ _ _ (by omega),
      writesAt_spawn10_nil _ 10 _ _ _ (by omega),
      writesAt_solid_nil _ 19 _ _ _ _ _ (by omega),
      writesAt_spawn10_nil _ 32 _ _ _ (by omega),
      writesAt_solid_nil _ 41 _ _ _ _ _ (by omega),
      writesAt_spawn10_nil _ 44 _ _ _ (by omega),
      writesAt_spawn10_nil _ 54 _ _ _ (by omega)]
    simp only [List.append_nil, List.nil_append]
    rfl
  · intro h2
    rw [writesAt_solid_nil _ 0 _ _ _ _ _ (by omega),
      writesAt_spawn10_nil _ 10 _ _ _ (by omega),
      writesAt_solid_nil _ 19 _ _ _ _ _ (by omega),
      writesAt_spawn10_nil _ 22 _ _ _ (by omega),
      writesAt_solid_nil _ 41 _ _ _ _ _ (by omega),
      writesAt_spawn10_nil _ 44 _ _ _ (by omega),
      writesAt_spawn10_nil _ 54 _ _ _ (by omega)]
    simp only [List.append_nil, List.nil_append]
    rfl
  · intro h2
    rw [writesAt_solid_nil _ 0 _ _ _ _ _ (by omega),
      writesAt_spawn10_nil _ 10 _ _ _ (by omega),
      writesAt_solid_nil _ 19 _ _ _ _ _ (by omega),
      writesAt_spawn10_nil _ 22 _ _ _ (by omega),
      writesAt_spawn10_nil _ 32 _ _ _ (by omega),
      writesAt_solid_nil _ 41 _ _ _ _ _ (by omega),
      writesAt_spawn10_nil _ 54 _ _ _ (by omega)]
    simp only [List.append_nil, List.nil_append]
    rfl
  · rw [writesAt_solid_nil _ 0 _ _ _ _ _ (by omega),
      writesAt_spawn10_nil _ 10 _ _ _ (by omega),
      writesAt_solid_nil _ 19 _ _ _ _ _ (by omega),
      writesAt_spawn10_nil _ 22 _ _ _ (by omega),
      writesAt_spawn10_nil _ 32 _ _ _ (by omega),
      writesAt_solid_nil _ 41 _ _ _ _ _ (by omega),
      writesAt_spawn10_nil _ 44 _ _ _ (by omega)]
    simp only [List.append_nil, List.nil_append]
    rfl

theorem drawDigitAt_rollover20 (pos : Nat) (xx : Int) (fb : List (List Nat)) :
    drawDigitAt (rolloverState MORPH_STEPS) pos xx fb =
      drawBitmapSolid (DIGITS (digitIdx ("130000".toList.getD pos '-'))) xx 0 DIGIT_W 255 fb := by
  unfold drawDigitAt
  rw [if_neg fun hc => absurd hc.2 (by decide)]
  rfl

theorem drawDigitAt_static130 (pos : Nat) (xx : Int) (fb : List (List Nat)) :
    drawDigitAt ⟨0, "130000".toList, "130000".toList, MORPH_STEPS⟩ pos xx fb =
      drawBitmapSolid (DIGITS (digitIdx ("130000".toList.getD pos '-'))) xx 0 DIGIT_W 255 fb := by
  unfold drawDigitAt
  rw [if_neg fun hc => absurd hc.2 (by decide)]

set_option maxRecDepth 100000 in
set_option maxHeartbeats 4000000 in
/-- C8 counterexample: in the "12:59:59" → "13:00:00" rollover, five of
the six digit positions change, not three, and at step 10 at least four
distinct digit boxes (positions 1-4, witnessed at cells (11,5), (23,5),
(33,5) and (45,5)) contain the intermediate intensity 127, so it is false
that exactly three positions show intermediate intensities. -/
theorem rollover_three_changed_false :
    ((List.range 6).filter fun pos =>
      ("130000".toList.getD pos '-') != ("125959".toList.getD pos '-')).length = 5 ∧
    fbGet (drawFrame (rolloverState 10)) 11 5 = 127 ∧
    fbGet (drawFrame (rolloverState 10)) 23 5 = 127 ∧
    fbGet (drawFrame (rolloverState 10)) 33 5 = 127 ∧
    fbGet (drawFrame (rolloverState 10)) 45 5 = 127 ∧
    (127 : Nat) ≠ 0 ∧ (127 : Nat) ≠ 255 := by
  refine ⟨by decide, ?_, ?_, ?_, ?_, by decide, by decide⟩
  · rw [fbGet_drawFrame _ _ _ (by decide) (by decide) (by decide) (by decide),
      (rollover10_region 11 5).2.1 (by decide) (by decide)]
    decide
  · rw [fbGet_drawFrame _ _ _ (by decide) (by decide) (by decide) (by decide),
      (rollover10_region 23 5).2.2.1 (by decide) (by decide)]
    decide
  · rw [fbGet_drawFrame _ _ _ (by decide) (by decide) (by decide) (by decide),
      (rollover10_region 33 5).2.2.2.1 (by decide) (by decide)]
    decide
  · rw [fbGet_drawFrame _ _ _ (by decide) (by decide) (by decide) (by decide),
      (rollover10_region 45 5).2.2.2.2.1 (by decide) (by decide)]
    decide

set_option maxRecDepth 100000 in
set_option maxHeartbeats 4000000 in
/-- C8 (amended): with the 64×32 matrix and N = 20, after 20 ticks from
step 0 the morph counter reaches 20 and the frame renders as the static
full-intensity frame of "130000"; at step 10 the FIVE changed positions
(1-5, witnessed by one cell of each box at intensity 127) show
intermediate intensities, while the unchanged position 0 reads only 0 or
255 in its whole box. -/
theorem rollover_morph_scenario :
    (advanceMorphStep^[MORPH_STEPS] (rolloverState 0)).morphStep = MORPH_STEPS ∧
    drawFrame (rolloverState MORPH_STEPS) = staticTimeRender ("130000".toList) ∧
    ((List.range 6).filter fun pos =>
      ("130000".toList.getD pos '-') != ("125959".toList.getD pos '-')) = [1, 2, 3, 4, 5] ∧
    fbGet (drawFrame (rolloverState 10)) 11 5 = 127 ∧
    fbGet (drawFrame (rolloverState 10)) 23 5 = 127 ∧
    fbGet (drawFrame (rolloverState 10)) 33 5 = 127 ∧
    fbGet (drawFrame (rolloverState 10)) 45 5 = 127 ∧
    fbGet (drawFrame (rolloverState 10)) 55 5 = 127 ∧
    (∀ (a : Fin DIGIT_W) (b : Fin DIGIT_H),
      fbGet (drawFrame (rolloverState 10)) ((a : Nat) : Int) ((b : Nat) : Int) = 0 ∨
      fbGet (drawFrame (rolloverState 10)) ((a : Nat) : Int) ((b : Nat) : Int) = 255) := by
  refine ⟨by decide, ?_, by decide, ?_, ?_, ?_, ?_, ?_, ?_⟩
  · unfold staticTimeRender drawFrame
    simp only [drawDigitAt_rollover20, drawDigitAt_static130]
  · rw [fbGet_drawFrame _ _ _ (by decide) (by decide) (by decide) (by decide),
      (rollover10_region 11 5).2.1 (by decide) (by decide)]
    decide
  · rw [fbGet_drawFrame _ _ _ (by decide) (by decide) (by decide) (by decide),
      (rollover10_region 23 5).2.2.1 (by decide) (by decide)]
    decide
  · rw [fbGet_drawFrame _ _ _ (by decide) (by decide) (by decide) (by decide),
      (rollover10_region 33 5).2.2.2.1 (by decide) (by decide)]
    decide
  · rw [fbGet_drawFrame _ _ _ (by decide) (by decide) (by decide) (by decide),
      (rollover10_region 45 5).2.2.2.2.1 (by decide) (by decide)]
    decide
  · rw [fbGet_drawFrame _ _ _ (by decide) (by decide) (by decide) (by decide),
      (rollover10_region 55 5).2.2.2.2.2 (by decide)]
    decide
  · intro a b
    have ha : (a : Nat) < 9 := a.isLt
    have hb : (b : Nat) < 32 := b.isLt
    rw [fbGet_drawFrame _ _ _ (by omega) (by omega)
      (by show ((a : Nat) : Int) < ((64 : Nat) : Int); omega)
      (by show ((b : Nat) : Int) < ((32 : Nat) : Int); omega)]
    rw [(rollover10_region ((a : Nat) : Int) ((b : Nat) : Int)).1 (by omega) (by omega)]
    exact cellOf_solid_values (DIGITS 1) 0 0 DIGIT_W 255 _ _

/-! ### Particle morph (part_002 lines 284-362).  Greedy nearest-neighbour
matching of the on-pixels of the two glyphs, then three write phases:
matched pairs at the interpolated position with opacity 255, surplus
destination pixels fading in, surplus source pixels fading out. -/

/-- The inner argmin loop of the matching: scan the destination points in
order, skipping used ones, keeping the first strict improvement
(`bestJ = -1`, `bestD = 1e9` initially). -/
def bestMatch (p : Int × Int) (toPts : List (Int × Int)) (used : List Bool) : Int × Int :=
  (List.range toPts.length).foldl (fun acc j =>
    if used.getD j false then acc
    else if dist2 p (toPts.getD j (0, 0)) < acc.2 then
      ((j : Int), dist2 p (toPts.getD j (0, 0)))
    else acc)
    (-1, 10 ^ 9)

/-- The matching loop: for each of the first `pairs` source points pick
the best unused destination point (index 0 as fallback when none is
free), record it and mark it used. -/
def greedyMatch (fromPts toPts : List (Int × Int)) (pairs : Nat) :
    List Nat × List Bool :=
  (List.range pairs).foldl (fun acc i =>
    let b := bestMatch (fromPts.getD i (0, 0)) toPts acc.2
    let bestJ := if b.1 < 0 then 0 else b.1.toNat
    (acc.1 ++ [bestJ], acc.2.set bestJ true))
    ([], List.replicate toPts.length false)

/-- The x (or y) coordinate interpolation of a matched particle:
`lroundf(a + (b - a) * t)` in binary32, with `t = step / MORPH_STEPS`. -/
def particleInterp (step : Nat) (a b : Int) : Int :=
  lroundF (fadd (fofInt a) (fmul (fofInt (b - a)) (fdiv (fofInt step) (fofInt MORPH_STEPS))))

/-- The fade-in opacity `(uint8_t)(255 * t)`. -/
def particleFadeIn (step : Nat) : Nat :=
  (truncF (fmul (fofInt 255) (fdiv (fofInt step) (fofInt MORPH_STEPS)))).toNat

/-- The fade-out opacity `(uint8_t)(255 * (1.0f - t))`. -/
def particleFadeOut (step : Nat) : Nat :=
  (truncF (fmul (fofInt 255)
    (fsub (fofInt 1) (fdiv (fofInt step) (fofInt MORPH_STEPS))))).toNat

/-- The vertical rescale applied to particle coordinates
(`(y * LED_MATRIX_H) / DIGIT_H`, C integer division). -/
def partYScaled (y : Int) : Int :=
  Int.tdiv (y * ((LED_MATRIX_H : Nat) : Int)) ((DIGIT_H : Nat) : Int)

/-- `drawParticleMorph` (part_002 lines 284-362).  `fromN`/`toN` are the
extraction counts clamped to the 420-point buffers, of which the stored
prefixes are `take 420`; phase 2 walks the destination list with the
`extra > 0` loop guard of the source. -/
def drawParticleMorph (fromBm toBm : Bitmap) (step : Nat) (x0 y0 : Int) (w : Nat)
    (fb : List (List Nat)) : List (List Nat) :=
  let fromPts := (buildPixelsFromBitmap fromBm w).take 420
  let toPts := (buildPixelsFromBitmap toBm w).take 420
  let fromN := min (buildPixelsFromBitmap fromBm w).length 420
  let toN := min (buildPixelsFromBitmap toBm w).length 420
  let pairs := min fromN toN
  let m := greedyMatch fromPts toPts pairs
  let fb1 := (List.range pairs).foldl (fun fb2 i =>
    let a := fromPts.getD i (0, 0)
    let b := toPts.getD (m.1.getD i 0) (0, 0)
    fbSet fb2 (x0 + particleInterp step a.1 b.1)
      (y0 + partYScaled (particleInterp step a.2 b.2)) 255) fb
  let fb2 := if fromN < toN then
      ((List.range toN).foldl (fun (acc : List (List Nat) × Nat) j =>
        if acc.2 = 0 then acc
        else if m.2.getD j false then acc
        else
          let p := toPts.getD j (0, 0)
          (fbSet acc.1 (x0 + p.1) (y0 + partYScaled p.2) (particleFadeIn step),
            acc.2 - 1))
        (fb1, toN - fromN)).1
    else fb1
  if toN < fromN then
    (List.range' toN (fromN - toN)).foldl (fun fb3 i =>
      let p := fromPts.getD i (0, 0)
      fbSet fb3 (x0 + p.1) (y0 + partYScaled p.2) (particleFadeOut step)) fb2
  else fb2

/-- The matched-pair writes of the particle morph. -/
def particleMatchedWrites (fromBm toBm : Bitmap) (step : Nat) (x0 y0 : Int) (w : Nat) :
    List Write :=
  let fromPts := (buildPixelsFromBitmap fromBm w).take 420
  let toPts := (buildPixelsFromBitmap toBm w).take 420
  let pairs := min (min (buildPixelsFromBitmap fromBm w).length 420)
    (min (buildPixelsFromBitmap toBm w).length 420)
  let m := greedyMatch fromPts toPts pairs
  (List.range pairs).map fun i =>
    let a := fromPts.getD i (0, 0)
    let b := toPts.getD (m.1.getD i 0) (0, 0)
    (x0 + particleInterp step a.1 b.1, y0 + partYScaled (particleInterp step a.2 b.2), 255)

/-- The fade-in writes: every unmatched destination point in scan
order. -/
def particleFadeInWrites (fromBm toBm : Bitmap) (step : Nat) (x0 y0 : Int) (w : Nat) :
    List Write :=
  let fromPts := (buildPixelsFromBitmap fromBm w).take 420
  let toPts := (buildPixelsFromBitmap toBm w).take 420
  let toN := min (buildPixelsFromBitmap toBm w).length 420
  let pairs := min (min (buildPixelsFromBitmap fromBm w).length 420) toN
  let m := greedyMatch fromPts toPts pairs
  ((List.range toN).filter fun j => !(m.2.getD j false)).map fun j =>
    let p := toPts.getD j (0, 0)
    (x0 + p.1, y0 + partYScaled p.2, particleFadeIn step)

/-- The fade-out writes: every surplus source point (indices `[toN, fromN)`)
in scan order. -/
def particleFadeOutWrites (fromBm toBm : Bitmap) (step : Nat) (x0 y0 : Int) (w : Nat) :
    List Write :=
  let fromPts := (buildPixelsFromBitmap fromBm w).take 420
  let fromN := min (buildPixelsFromBitmap fromBm w).length 420
  let toN := min (buildPixelsFromBitmap toBm w).length 420
  if toN < fromN then
    (List.range' toN (fromN - toN)).map fun i =>
      let p := fromPts.getD i (0, 0)
      (x0 + p.1, y0 + partYScaled p.2, particleFadeOut step)
  else []

/-- All writes of the particle morph, in emission order. -/
def particleWrites (fromBm toBm : Bitmap) (step : Nat) (x0 y0 : Int) (w : Nat) :
    List Write :=
  particleMatchedWrites fromBm toBm step x0 y0 w ++
    particleFadeInWrites fromBm toBm step x0 y0 w ++
      particleFadeOutWrites fromBm toBm step x0 y0 w




/-! ### Greedy matcher: specification of the argmin scan -/

/-- Invariant of the `bestMatch` scan after examining destination indices
`< n`: either every scanned index was used (accumulator untouched), or the
accumulator holds the first scanned unused index of minimal distance. -/
def bmAcc (p : Int × Int) (toPts : List (Int × Int)) (used : List Bool)
    (n : Nat) (acc : Int × Int) : Prop :=
  (acc = (-1, 10 ^ 9) ∧ ∀ j < n, used.getD j false = true) ∨
  (∃ J : Nat, J < n ∧ acc = ((J : Int), dist2 p (toPts.getD J (0, 0))) ∧
    used.getD J false = false ∧
    ∀ j < n, used.getD j false = false →
      dist2 p (toPts.getD J (0, 0)) ≤ dist2 p (toPts.getD j (0, 0)) ∧
      (dist2 p (toPts.getD J (0, 0)) = dist2 p (toPts.getD j (0, 0)) → J ≤ j))

theorem bestMatch_fold (p : Int × Int) (toPts : List (Int × Int)) (used : List Bool)
    (hd : ∀ j < toPts.length, dist2 p (toPts.getD j (0, 0)) < 10 ^ 9) :
    ∀ n, n ≤ toPts.length →
      bmAcc p toPts used n ((List.range n).foldl (fun acc j =>
        if used.getD j false then acc
        else if dist2 p (toPts.getD j (0, 0)) < acc.2 then
          ((j : Int), dist2 p (toPts.getD j (0, 0)))
        else acc) (-1, 10 ^ 9)) := by
  intro n
  induction n with
  | zero =>
    intro _
    exact Or.inl ⟨rfl, by omega⟩
  | succ n ih =>
    intro hn
    have h := ih (by omega)
    rw [List.range_succ, List.foldl_append, List.foldl_cons, List.foldl_nil]
    set acc := (List.range n).foldl (fun acc j =>
      if used.getD j false then acc
      else if dist2 p (toPts.getD j (0, 0)) < acc.2 then
        ((j : Int), dist2 p (toPts.getD j (0, 0)))
      else acc) (-1, 10 ^ 9) with hacc
    by_cases hu : used.getD n false
    · rw [if_pos hu]
      rcases h with ⟨he, hall⟩ | ⟨J, hJ, he, huJ, hmin⟩
      · exact Or.inl ⟨he, fun j hj => by
          rcases Nat.lt_succ_iff_lt_or_eq.mp hj with hj2 | hj2
          · exact hall j hj2
          · rw [hj2]; exact hu⟩
      · refine Or.inr ⟨J, by omega, he, huJ, fun j hj hju => ?_⟩
        rcases Nat.lt_succ_iff_lt_or_eq.mp hj with hj2 | hj2
        · exact hmin j hj2 hju
        · rw [hj2] at hju; rw [hju] at hu; exact absurd hu (by simp)
    · have hu2 : used.getD n false = false := by
        exact Bool.eq_false_iff.mpr hu
      rw [if_neg hu]
      rcases h with ⟨he, hall⟩ | ⟨J, hJ, he, huJ, hmin⟩
      · rw [he]
        have hdn := hd n (by omega)
        rw [if_pos hdn]
        refine Or.inr ⟨n, by omega, rfl, hu2, fun j hj hju => ?_⟩
        rcases Nat.lt_succ_iff_lt_or_eq.mp hj with hj2 | hj2
        · rw [hall j hj2] at hju; exact absurd hju (by simp)
        · rw [hj2]
          exact ⟨le_refl _, fun _ => le_refl _⟩
      · rw [he]
        by_cases hlt : dist2 p (toPts.getD n (0, 0)) < dist2 p (toPts.getD J (0, 0))
        · rw [if_pos hlt]
          refine Or.inr ⟨n, by omega, rfl, hu2, fun j hj hju => ?_⟩
          rcases Nat.lt_succ_iff_lt_or_eq.mp hj with hj2 | hj2
          · have h2 := hmin j hj2 hju
            constructor
            · omega
            · intro heq; omega
          · rw [hj2]
            exact ⟨le_refl _, fun _ => le_refl _⟩
        · rw [if_neg hlt]
          refine Or.inr ⟨J, by omega, rfl, huJ, fun j hj hju => ?_⟩
          rcases Nat.lt_succ_iff_lt_or_eq.mp hj with hj2 | hj2
          · exact hmin j hj2 hju
          · rw [hj2]
            constructor
            · omega
            · intro _; omega

/-- If some destination index is still unused, `bestMatch` returns a valid
first-minimal unused index (so the `bestJ < 0` fallback never fires). -/
theorem bestMatch_spec (p : Int × Int) (toPts : List (Int × Int)) (used : List Bool)
    (hd : ∀ j < toPts.length, dist2 p (toPts.getD j (0, 0)) < 10 ^ 9)
    (hex : ∃ j, j < toPts.length ∧ used.getD j false = false) :
    ∃ J : Nat, J < toPts.length ∧
      bestMatch p toPts used = ((J : Int), dist2 p (toPts.getD J (0, 0))) ∧
      used.getD J false = false ∧
      ∀ j < toPts.length, used.getD j false = false →
        dist2 p (toPts.getD J (0, 0)) ≤ dist2 p (toPts.getD j (0, 0)) ∧
        (dist2 p (toPts.getD J (0, 0)) = dist2 p (toPts.getD j (0, 0)) → J ≤ j) := by
  have h := bestMatch_fold p toPts used hd toPts.length (le_refl _)
  rcases h with ⟨_, hall⟩ | ⟨J, hJ, he, huJ, hmin⟩
  · obtain ⟨j, hj, hju⟩ := hex
    rw [hall j hj] at hju
    exact absurd hju (by simp)
  · exact ⟨J, hJ, he, huJ, hmin⟩

/-- A duplicate-free list of fewer than `n` naturals below `n` misses
some index below `n`. -/
theorem exists_unused (ml : List Nat) (n : Nat) (hnd : ml.Nodup)
    (hlen : ml.length < n) :
    ∃ j, j < n ∧ j ∉ ml := by
  by_contra hcon
  push_neg at hcon
  have hsub : Finset.range n ⊆ ml.toFinset := by
    intro j hj
    rw [List.mem_toFinset]
    exact hcon j (Finset.mem_range.mp hj)
  have hcard := Finset.card_le_card hsub
  rw [Finset.card_range, List.toFinset_card_of_nodup hnd] at hcard
  omega

/-- A duplicate-free list of `n` naturals below `n` hits every index
below `n`. -/
theorem all_used (ml : List Nat) (n : Nat) (hnd : ml.Nodup)
    (hlt : ∀ j ∈ ml, j < n) (hlen : n ≤ ml.length) :
    ∀ j, j < n → j ∈ ml := by
  intro j hj
  have hsub : ml.toFinset ⊆ Finset.range n := by
    intro a ha
    rw [List.mem_toFinset] at ha
    exact Finset.mem_range.mpr (hlt a ha)
  have heq := Finset.eq_of_subset_of_card_le hsub
    (by rw [Finset.card_range, List.toFinset_card_of_nodup hnd]; omega)
  have : j ∈ ml.toFinset := by rw [heq]; exact Finset.mem_range.mpr hj
  exact List.mem_toFinset.mp this

theorem length_filter_not {α : Type} (p : α → Bool) (l : List α) :
    (l.filter p).length + (l.filter fun a => !(p a)).length = l.length := by
  induction l with
  | nil => rfl
  | cons a l ih =>
    by_cases h : p a <;> simp [List.filter_cons, h] <;> omega

/-- The below-`n` indices belonging to a duplicate-free list are exactly
its elements, up to order. -/
theorem length_filter_mem (ml : List Nat) (n : Nat) (hnd : ml.Nodup)
    (hlt : ∀ j ∈ ml, j < n) :
    ((List.range n).filter fun j => decide (j ∈ ml)).length = ml.length := by
  have hperm : ((List.range n).filter fun j => decide (j ∈ ml)).Perm ml := by
    rw [List.perm_ext_iff_of_nodup (List.Nodup.filter _ (List.nodup_range n)) hnd]
    intro a
    simp only [List.mem_filter, List.mem_range, decide_eq_true_eq]
    exact ⟨fun h => h.2, fun h => ⟨hlt a h, h⟩⟩
  exact hperm.length_eq

/-- The number of below-`n` indices missing from a duplicate-free list of
below-`n` naturals. -/
theorem length_filter_not_mem (ml : List Nat) (n : Nat) (hnd : ml.Nodup)
    (hlt : ∀ j ∈ ml, j < n) :
    ((List.range n).filter fun j => !(decide (j ∈ ml))).length = n - ml.length := by
  have h1 := length_filter_not (fun j => decide (j ∈ ml)) (List.range n)
  rw [length_filter_mem ml n hnd hlt, List.length_range] at h1
  omega

/-! ### The greedy matching loop invariant -/

/-- The first-minimal matching property of entry `i` of the match list:
the matched destination index is in range, was not handed out before, and
among the destination indices not handed out before step `i` it is the
first one at minimal squared distance from source point `i`. -/
def matchMin (fromPts toPts : List (Int × Int)) (ml : List Nat) (i : Nat) : Prop :=
  ml.getD i 0 < toPts.length ∧ ml.getD i 0 ∉ ml.take i ∧
  ∀ j < toPts.length, j ∉ ml.take i →
    dist2 (fromPts.getD i (0, 0)) (toPts.getD (ml.getD i 0) (0, 0)) ≤
      dist2 (fromPts.getD i (0, 0)) (toPts.getD j (0, 0)) ∧
    (dist2 (fromPts.getD i (0, 0)) (toPts.getD (ml.getD i 0) (0, 0)) =
      dist2 (fromPts.getD i (0, 0)) (toPts.getD j (0, 0)) → ml.getD i 0 ≤ j)

/-- Bounded coordinates give squared distances below the `1e9` sentinel. -/
theorem dist2_lt_sentinel (p q : Int × Int)
    (hp : 0 ≤ p.1 ∧ p.1 ≤ 16 ∧ 0 ≤ p.2 ∧ p.2 ≤ 32)
    (hq : 0 ≤ q.1 ∧ q.1 ≤ 16 ∧ 0 ≤ q.2 ∧ q.2 ≤ 32) :
    dist2 p q < 10 ^ 9 := by
  unfold dist2
  nlinarith [hp.1, hp.2.1, hp.2.2.1, hp.2.2.2, hq.1, hq.2.1, hq.2.2.1, hq.2.2.2]

theorem getD_mem_of_lt {α : Type} (l : List α) (n : Nat) (d : α) (h : n < l.length) :
    l.getD n d ∈ l := by
  rw [List.getD_eq_getElem l d h]
  exact List.getElem_mem h

theorem getD_append_left {α : Type} (l1 l2 : List α) (n : Nat) (d : α)
    (h : n < l1.length) : (l1 ++ l2).getD n d = l1.getD n d := by
  rw [List.getD_eq_getElem?_getD, List.getD_eq_getElem?_getD,
    List.getElem?_append, if_pos h]

theorem getD_append_length {α : Type} (l : List α) (a : α) (d : α) :
    (l ++ [a]).getD l.length d = a := by
  rw [List.getD_eq_getElem?_getD]
  simp

/-- Appending to the match list does not disturb the records of earlier
steps. -/
theorem matchMin_append (fromPts toPts : List (Int × Int)) (ml : List Nat) (a : Nat)
    (i : Nat) (hi : i < ml.length) (h : matchMin fromPts toPts ml i) :
    matchMin fromPts toPts (ml ++ [a]) i := by
  unfold matchMin at h ⊢
  rw [getD_append_left _ _ _ _ hi, List.take_append_of_le_length (by omega)]
  exact h

/-- Invariant of the greedy matching loop after `i` iterations. -/
def gmInv (fromPts toPts : List (Int × Int)) (i : Nat)
    (st : List Nat × List Bool) : Prop :=
  st.1.length = i ∧
  st.2.length = toPts.length ∧
  (∀ j, st.2.getD j false = true ↔ j ∈ st.1) ∧
  st.1.Nodup ∧
  (∀ j ∈ st.1, j < toPts.length) ∧
  (∀ i2 < i, matchMin fromPts toPts st.1 i2)

theorem greedyMatch_fold (fromPts toPts : List (Int × Int)) (pairs : Nat)
    (hp1 : pairs ≤ fromPts.length) (hp2 : pairs ≤ toPts.length)
    (hfrom : ∀ q ∈ fromPts, 0 ≤ q.1 ∧ q.1 ≤ 16 ∧ 0 ≤ q.2 ∧ q.2 ≤ 32)
    (hto : ∀ q ∈ toPts, 0 ≤ q.1 ∧ q.1 ≤ 16 ∧ 0 ≤ q.2 ∧ q.2 ≤ 32) :
    ∀ n, n ≤ pairs →
      gmInv fromPts toPts n ((List.range n).foldl (fun acc i =>
        let b := bestMatch (fromPts.getD i (0, 0)) toPts acc.2
        let bestJ := if b.1 < 0 then 0 else b.1.toNat
        (acc.1 ++ [bestJ], acc.2.set bestJ true))
        ([], List.replicate toPts.length false)) := by
  intro n
  induction n with
  | zero =>
    intro _
    refine ⟨rfl, List.length_replicate _ _, fun j => ?_, List.nodup_nil, by simp, by omega⟩
    have hr : (List.replicate toPts.length false).getD j false = false := by
      rw [List.getD_eq_getElem?_getD, List.getElem?_replicate]
      split <;> rfl
    simp [hr]
  | succ n ih =>
    intro hn
    obtain ⟨hlen, hulen, hiff, hnd, hmem, hrec⟩ := ih (by omega)
    rw [List.range_succ, List.foldl_append, List.foldl_cons, List.foldl_nil]
    set st := (List.range n).foldl (fun acc i =>
      let b := bestMatch (fromPts.getD i (0, 0)) toPts acc.2
      let bestJ := if b.1 < 0 then 0 else b.1.toNat
      (acc.1 ++ [bestJ], acc.2.set bestJ true))
      ([], List.replicate toPts.length false) with hst
    have hd : ∀ j < toPts.length,
        dist2 (fromPts.getD n (0, 0)) (toPts.getD j (0, 0)) < 10 ^ 9 := by
      intro j hj
      exact dist2_lt_sentinel _ _
        (hfrom _ (getD_mem_of_lt fromPts n (0, 0) (by omega)))
        (hto _ (getD_mem_of_lt toPts j (0, 0) hj))
    have hex : ∃ j, j < toPts.length ∧ st.2.getD j false = false := by
      obtain ⟨j, hj1, hj2⟩ := exists_unused st.1 toPts.length hnd (by omega)
      refine ⟨j, hj1, ?_⟩
      rcases h : st.2.getD j false with _ | _
      · rfl
      · exact absurd ((hiff j).mp h) hj2
    obtain ⟨J, hJlt, hbm, hJu, hJmin⟩ :=
      bestMatch_spec (fromPts.getD n (0, 0)) toPts st.2 hd hex
    have hJnm : J ∉ st.1 := fun hc => by
      rw [(hiff J).mpr hc] at hJu
      exact absurd hJu (by simp)
    have hneg : ¬ ((J : Int) < 0) := by
      exact not_lt.mpr (Int.natCast_nonneg J)
    simp only [hbm]
    rw [if_neg hneg, Int.toNat_natCast]
    refine ⟨by simp [hlen], by rw [List.length_set]; exact hulen, ?_, ?_, ?_, ?_⟩
    · intro j
      by_cases hjJ : j = J
      · subst hjJ
        rw [getD_set_self _ _ _ _ (by omega)]
        simp
      · rw [getD_set_ne _ _ _ _ _ fun hc => hjJ hc.symm]
        rw [hiff j]
        simp [hjJ]
    · refine List.Nodup.append hnd (List.nodup_singleton J) ?_
      intro a ha hb
      rw [List.mem_singleton] at hb
      subst hb
      exact hJnm ha
    · intro j hj
      rcases List.mem_append.mp hj with h2 | h2
      · exact hmem j h2
      · rw [List.mem_singleton] at h2
        subst h2
        exact hJlt
    · intro i2 hi2
      rcases Nat.lt_succ_iff_lt_or_eq.mp hi2 with h2 | h2
      · exact matchMin_append _ _ _ _ _ (by omega) (hrec i2 h2)
      · subst h2
        unfold matchMin
        have hg := getD_append_length st.1 J 0
        rw [hlen] at hg
        have ht := List.take_left st.1 [J]
        rw [hlen] at ht
        rw [hg, ht]
        refine ⟨hJlt, hJnm, ?_⟩
        intro j hj hjm
        have hju : st.2.getD j false = false := by
          rcases h : st.2.getD j false with _ | _
          · rfl
          · exact absurd ((hiff j).mp h) hjm
        exact hJmin j hj hju

/-- The result of `greedyMatch` satisfies the loop invariant. -/
theorem greedyMatch_spec (fromPts toPts : List (Int × Int)) (pairs : Nat)
    (hp1 : pairs ≤ fromPts.length) (hp2 : pairs ≤ toPts.length)
    (hfrom : ∀ q ∈ fromPts, 0 ≤ q.1 ∧ q.1 ≤ 16 ∧ 0 ≤ q.2 ∧ q.2 ≤ 32)
    (hto : ∀ q ∈ toPts, 0 ≤ q.1 ∧ q.1 ≤ 16 ∧ 0 ≤ q.2 ∧ q.2 ≤ 32) :
    gmInv fromPts toPts pairs (greedyMatch fromPts toPts pairs) :=
  greedyMatch_fold fromPts toPts pairs hp1 hp2 hfrom hto pairs (le_refl _)

/-- A fold of single `fbSet` writes is the application of the mapped
write list. -/
theorem foldl_fbSet_writes {α : Type} (f g : α → Int) (v : α → Nat) (l : List α)
    (fb : List (List Nat)) :
    l.foldl (fun fb2 a => fbSet fb2 (f a) (g a) (v a)) fb =
      applyWrites LED_MATRIX_W LED_MATRIX_H fb (l.map fun a => (f a, g a, v a)) := by
  induction l generalizing fb with
  | nil => rfl
  | cons a l ih =>
    rw [List.foldl_cons, List.map_cons, applyWrites_cons]
    exact ih _

/-- The fade-in loop of the particle morph: as long as the `extra`
countdown covers the number of unused destination indices in the scan
list, the loop writes exactly the unused indices, in order. -/
theorem foldl_fadeIn (used : List Bool) (pts : List (Int × Int)) (x0 y0 : Int) (v : Nat) :
    ∀ (js : List Nat) (fb : List (List Nat)) (extra : Nat),
      (js.filter fun j => !(used.getD j false)).length ≤ extra →
      (js.foldl (fun (acc : List (List Nat) × Nat) j =>
          if acc.2 = 0 then acc
          else if used.getD j false then acc
          else (fbSet acc.1 (x0 + (pts.getD j (0, 0)).1)
              (y0 + partYScaled (pts.getD j (0, 0)).2) v, acc.2 - 1))
        (fb, extra)).1 =
      applyWrites LED_MATRIX_W LED_MATRIX_H fb
        ((js.filter fun j => !(used.getD j false)).map fun j =>
          (x0 + (pts.getD j (0, 0)).1, y0 + partYScaled (pts.getD j (0, 0)).2, v)) := by
  intro js
  induction js with
  | nil => intro fb extra _; rfl
  | cons j js ih =>
    intro fb extra hlen
    rw [List.foldl_cons]
    dsimp only
    by_cases hu : used.getD j false
    · simp only [List.filter_cons, hu, Bool.not_true, Bool.false_eq_true, if_false,
        if_true, ite_self] at hlen ⊢
      exact ih fb extra hlen
    · have hu2 : used.getD j false = false := Bool.eq_false_iff.mpr hu
      simp only [List.filter_cons, hu2, Bool.not_false, if_true] at hlen ⊢
      have hne : ¬ (extra = 0) := by
        rw [List.length_cons] at hlen
        omega
      rw [if_neg hne, if_neg (by simp [hu2]), List.map_cons, applyWrites_cons]
      refine Eq.trans (ih _ (extra - 1) ?_) rfl
      rw [List.length_cons] at hlen
      omega

/-- The match list of the particle morph (the `matchTo` array). -/
def particleMatch (fromBm toBm : Bitmap) (w : Nat) : List Nat :=
  (greedyMatch ((buildPixelsFromBitmap fromBm w).take 420)
    ((buildPixelsFromBitmap toBm w).take 420)
    (min (min (buildPixelsFromBitmap fromBm w).length 420)
      (min (buildPixelsFromBitmap toBm w).length 420))).1

/-- Points extracted from a glyph of width at most 13 lie in a
16 × 32 box. -/
theorem take_box (bm : Bitmap) (w : Nat) (hw : w ≤ 13) :
    ∀ q ∈ (buildPixelsFromBitmap bm w).take 420,
      0 ≤ q.1 ∧ q.1 ≤ 16 ∧ 0 ≤ q.2 ∧ q.2 ≤ 32 := by
  intro q hq
  have h := buildPixels_mem bm w q (List.mem_of_mem_take hq)
  have hD : ((DIGIT_H : Nat) : Int) = 32 := by norm_num [DIGIT_H, LED_MATRIX_H]
  rw [hD] at h
  have hwle : ((w : Nat) : Int) ≤ 13 := by exact_mod_cast hw
  refine ⟨h.1, by omega, h.2.2.1, by omega⟩

/-- `drawParticleMorph` applies exactly the writes of `particleWrites`. -/
theorem drawParticleMorph_eq_applyWrites (fromBm toBm : Bitmap) (step : Nat)
    (x0 y0 : Int) (w : Nat) (hw : w ≤ 13) (fb : List (List Nat)) :
    drawParticleMorph fromBm toBm step x0 y0 w fb =
      applyWrites LED_MATRIX_W LED_MATRIX_H fb
        (particleWrites fromBm toBm step x0 y0 w) := by
  unfold drawParticleMorph particleWrites particleMatchedWrites particleFadeInWrites
    particleFadeOutWrites
  dsimp only
  set FP := (buildPixelsFromBitmap fromBm w).take 420 with hFPdef
  set TP := (buildPixelsFromBitmap toBm w).take 420 with hTPdef
  set fN := min (buildPixelsFromBitmap fromBm w).length 420 with hfN
  set tN := min (buildPixelsFromBitmap toBm w).length 420 with htN
  set M := greedyMatch FP TP (min fN tN) with hMdef
  have hFPlen : FP.length = fN := by
    rw [hFPdef, List.length_take]; omega
  have hTPlen : TP.length = tN := by
    rw [hTPdef, List.length_take]; omega
  obtain ⟨hmlen, hulen, hiff, hnd, hmem, hrec⟩ :
      gmInv FP TP (min fN tN) M := by
    rw [hMdef]
    exact greedyMatch_spec FP TP (min fN tN) (by omega) (by omega)
      (hFPdef ▸ take_box fromBm w hw) (hTPdef ▸ take_box toBm w hw)
  have husedeq : ∀ j, M.2.getD j false = decide (j ∈ M.1) := by
    intro j
    rcases h : M.2.getD j false with _ | _
    · symm
      rw [decide_eq_false_iff_not]
      intro hc
      rw [(hiff j).mpr hc] at h
      cases h
    · symm
      rw [decide_eq_true_eq]
      exact (hiff j).mp h
  have hmem2 : ∀ j ∈ M.1, j < tN := by
    intro j hj
    have := hmem j hj
    omega
  rw [applyWrites_append, applyWrites_append]
  simp only [foldl_fbSet_writes]
  by_cases hft : fN < tN
  · have hnf : ¬ (tN < fN) := by omega
    rw [if_pos hft, if_neg hnf, if_neg hnf, applyWrites_nil]
    have hcount : ((List.range tN).filter
        (fun j => !(M.2.getD j false))).length ≤ tN - fN := by
      rw [List.filter_congr (fun j _ => by rw [husedeq j])]
      rw [length_filter_not_mem M.1 tN hnd hmem2]
      omega
    exact foldl_fadeIn M.2 TP x0 y0 (particleFadeIn step) (List.range tN) _
      (tN - fN) hcount
  · rw [if_neg hft]
    have hBnil : ((List.range tN).filter (fun j => !(M.2.getD j false))) = [] := by
      rw [List.filter_eq_nil_iff]
      intro j hj
      rw [husedeq j]
      simp only [Bool.not_eq_true, Bool.not_eq_false', decide_eq_true_eq]
      exact all_used M.1 tN hnd hmem2 (by omega) j (List.mem_range.mp hj)
    rw [hBnil, List.map_nil, applyWrites_nil]
    by_cases htf : tN < fN
    · rw [if_pos htf, if_pos htf]
    · rw [if_neg htf, if_neg htf, applyWrites_nil]

/-- The fade-in opacity is `255*step/N` at every step (the binary32
rounding chain never disturbs the truncated value). -/
theorem particleFadeIn_fin :
    ∀ s : Fin (MORPH_STEPS + 1), particleFadeIn s.1 = 255 * s.1 / MORPH_STEPS := by
  decide

/-- The fade-out opacity equals `255*(N-step)/N` except at steps 12 and
16, where the binary32 value of `1.0f - t` falls just below the rational
value and truncation loses one intensity level. -/
theorem particleFadeOut_fin :
    ∀ s : Fin (MORPH_STEPS + 1), particleFadeOut s.1 =
      (if s.1 = 12 ∨ s.1 = 16 then 255 * (MORPH_STEPS - s.1) / MORPH_STEPS - 1
       else 255 * (MORPH_STEPS - s.1) / MORPH_STEPS) := by
  decide

/-- C3c: counterexample values for the fade-out opacity formula. -/
theorem particle_fadeout_formula_fails :
    particleFadeOut 12 = 101 ∧ 255 * (MORPH_STEPS - 12) / MORPH_STEPS = 102 ∧
    particleFadeOut 16 = 50 ∧ 255 * (MORPH_STEPS - 16) / MORPH_STEPS = 51 := by
  decide

/-- C3: the amended particle-morph accounting. -/
theorem particle_morph_accounting (fromBm toBm : Bitmap) (step : Nat) (x0 y0 : Int)
    (w : Nat) (hw : w ≤ 13) (hs : step ≤ MORPH_STEPS) :
    (buildPixelsFromBitmap fromBm w).length ≤ 420 ∧
    (buildPixelsFromBitmap toBm w).length ≤ 420 ∧
    (∀ fb, drawParticleMorph fromBm toBm step x0 y0 w fb =
      applyWrites LED_MATRIX_W LED_MATRIX_H fb (particleWrites fromBm toBm step x0 y0 w)) ∧
    (particleMatch fromBm toBm w).length =
      min (buildPixelsFromBitmap fromBm w).length (buildPixelsFromBitmap toBm w).length ∧
    (particleMatch fromBm toBm w).Nodup ∧
    (∀ j ∈ particleMatch fromBm toBm w, j < (buildPixelsFromBitmap toBm w).length) ∧
    (∀ i, i < min (buildPixelsFromBitmap fromBm w).length
        (buildPixelsFromBitmap toBm w).length →
      matchMin (buildPixelsFromBitmap fromBm w) (buildPixelsFromBitmap toBm w)
        (particleMatch fromBm toBm w) i) ∧
    particleMatchedWrites fromBm toBm step x0 y0 w =
      (List.range (min (buildPixelsFromBitmap fromBm w).length
          (buildPixelsFromBitmap toBm w).length)).map (fun i =>
        (x0 + particleInterp step ((buildPixelsFromBitmap fromBm w).getD i (0, 0)).1
            ((buildPixelsFromBitmap toBm w).getD
              ((particleMatch fromBm toBm w).getD i 0) (0, 0)).1,
         y0 + partYScaled (particleInterp step
            ((buildPixelsFromBitmap fromBm w).getD i (0, 0)).2
            ((buildPixelsFromBitmap toBm w).getD
              ((particleMatch fromBm toBm w).getD i 0) (0, 0)).2),
         255)) ∧
    particleFadeInWrites fromBm toBm step x0 y0 w =
      ((List.range (buildPixelsFromBitmap toBm w).length).filter (fun j =>
          !(decide (j ∈ particleMatch fromBm toBm w)))).map (fun j =>
        (x0 + ((buildPixelsFromBitmap toBm w).getD j (0, 0)).1,
         y0 + partYScaled ((buildPixelsFromBitmap toBm w).getD j (0, 0)).2,
         particleFadeIn step)) ∧
    particleFadeOutWrites fromBm toBm step x0 y0 w =
      (List.range' (min (buildPixelsFromBitmap fromBm w).length
          (buildPixelsFromBitmap toBm w).length)
          ((buildPixelsFromBitmap fromBm w).length -
            (buildPixelsFromBitmap toBm w).length)).map (fun i =>
        (x0 + ((buildPixelsFromBitmap fromBm w).getD i (0, 0)).1,
         y0 + partYScaled ((buildPixelsFromBitmap fromBm w).getD i (0, 0)).2,
         particleFadeOut step)) ∧
    (particleFadeInWrites fromBm toBm step x0 y0 w).length =
      (buildPixelsFromBitmap toBm w).length -
        min (buildPixelsFromBitmap fromBm w).length (buildPixelsFromBitmap toBm w).length ∧
    (particleFadeOutWrites fromBm toBm step x0 y0 w).length =
      (buildPixelsFromBitmap fromBm w).length -
        min (buildPixelsFromBitmap fromBm w).length (buildPixelsFromBitmap toBm w).length ∧
    particleFadeIn step = 255 * step / MORPH_STEPS ∧
    (step ≠ 12 → step ≠ 16 →
      particleFadeOut step = 255 * (MORPH_STEPS - step) / MORPH_STEPS) ∧
    (step = 12 ∨ step = 16 →
      particleFadeOut step = 255 * (MORPH_STEPS - step) / MORPH_STEPS - 1) := by
  have hA1 : (buildPixelsFromBitmap fromBm w).length ≤ 420 :=
    le_trans (buildPixels_length_le fromBm w) (by omega)
  have hA2 : (buildPixelsFromBitmap toBm w).length ≤ 420 :=
    le_trans (buildPixels_length_le toBm w) (by omega)
  have hTkF : (buildPixelsFromBitmap fromBm w).take 420 = buildPixelsFromBitmap fromBm w :=
    List.take_of_length_le hA1
  have hTkT : (buildPixelsFromBitmap toBm w).take 420 = buildPixelsFromBitmap toBm w :=
    List.take_of_length_le hA2
  have hmF : min (buildPixelsFromBitmap fromBm w).length 420
      = (buildPixelsFromBitmap fromBm w).length := by omega
  have hmT : min (buildPixelsFromBitmap toBm w).length 420
      = (buildPixelsFromBitmap toBm w).length := by omega
  have hboxF : ∀ q ∈ buildPixelsFromBitmap fromBm w,
      0 ≤ q.1 ∧ q.1 ≤ 16 ∧ 0 ≤ q.2 ∧ q.2 ≤ 32 := by
    intro q hq
    exact take_box fromBm w hw q (by rw [hTkF]; exact hq)
  have hboxT : ∀ q ∈ buildPixelsFromBitmap toBm w,
      0 ≤ q.1 ∧ q.1 ≤ 16 ∧ 0 ≤ q.2 ∧ q.2 ≤ 32 := by
    intro q hq
    exact take_box toBm w hw q (by rw [hTkT]; exact hq)
  obtain ⟨hmlen, hulen, hiff, hnd, hmem, hrec⟩ := greedyMatch_spec
    (buildPixelsFromBitmap fromBm w) (buildPixelsFromBitmap toBm w)
    (min (buildPixelsFromBitmap fromBm w).length (buildPixelsFromBitmap toBm w).length)
    (Nat.min_le_left _ _) (Nat.min_le_right _ _) hboxF hboxT
  have hpm : particleMatch fromBm toBm w =
      (greedyMatch (buildPixelsFromBitmap fromBm w) (buildPixelsFromBitmap toBm w)
        (min (buildPixelsFromBitmap fromBm w).length
          (buildPixelsFromBitmap toBm w).length)).1 := by
    unfold particleMatch
    rw [hTkF, hTkT, hmF, hmT]
  have husedeq : ∀ j, (greedyMatch (buildPixelsFromBitmap fromBm w)
      (buildPixelsFromBitmap toBm w)
      (min (buildPixelsFromBitmap fromBm w).length
        (buildPixelsFromBitmap toBm w).length)).2.getD j false =
      decide (j ∈ (greedyMatch (buildPixelsFromBitmap fromBm w)
        (buildPixelsFromBitmap toBm w)
        (min (buildPixelsFromBitmap fromBm w).length
          (buildPixelsFromBitmap toBm w).length)).1) := by
    intro j
    rcases h : (greedyMatch (buildPixelsFromBitmap fromBm w)
        (buildPixelsFromBitmap toBm w)
        (min (buildPixelsFromBitmap fromBm w).length
          (buildPixelsFromBitmap toBm w).length)).2.getD j false with _ | _
    · symm
      rw [decide_eq_false_iff_not]
      intro hc
      rw [(hiff j).mpr hc] at h
      cases h
    · symm
      rw [decide_eq_true_eq]
      exact (hiff j).mp h
  have hH : particleFadeInWrites fromBm toBm step x0 y0 w =
      ((List.range (buildPixelsFromBitmap toBm w).length).filter (fun j =>
          !(decide (j ∈ particleMatch fromBm toBm w)))).map (fun j =>
        (x0 + ((buildPixelsFromBitmap toBm w).getD j (0, 0)).1,
         y0 + partYScaled ((buildPixelsFromBitmap toBm w).getD j (0, 0)).2,
         particleFadeIn step)) := by
    unfold particleFadeInWrites
    rw [hTkF, hTkT, hmF, hmT, hpm]
    simp only [husedeq]
  have hI : particleFadeOutWrites fromBm toBm step x0 y0 w =
      (List.range' (min (buildPixelsFromBitmap fromBm w).length
          (buildPixelsFromBitmap toBm w).length)
          ((buildPixelsFromBitmap fromBm w).length -
            (buildPixelsFromBitmap toBm w).length)).map (fun i =>
        (x0 + ((buildPixelsFromBitmap fromBm w).getD i (0, 0)).1,
         y0 + partYScaled ((buildPixelsFromBitmap fromBm w).getD i (0, 0)).2,
         particleFadeOut step)) := by
    unfold particleFadeOutWrites
    rw [hTkF, hmF, hmT]
    by_cases h : (buildPixelsFromBitmap toBm w).length
        < (buildPixelsFromBitmap fromBm w).length
    · rw [if_pos h, Nat.min_eq_right (le_of_lt h)]
    · rw [if_neg h,
        show (buildPixelsFromBitmap fromBm w).length
          - (buildPixelsFromBitmap toBm w).length = 0 from by omega]
      rfl
  have hmem2 : ∀ j ∈ (greedyMatch (buildPixelsFromBitmap fromBm w)
      (buildPixelsFromBitmap toBm w)
      (min (buildPixelsFromBitmap fromBm w).length
        (buildPixelsFromBitmap toBm w).length)).1,
      j < (buildPixelsFromBitmap toBm w).length := hmem
  have hfin : particleFadeIn step = 255 * step / MORPH_STEPS :=
    particleFadeIn_fin ⟨step, by omega⟩
  have hfout : particleFadeOut step =
      (if step = 12 ∨ step = 16 then 255 * (MORPH_STEPS - step) / MORPH_STEPS - 1
       else 255 * (MORPH_STEPS - step) / MORPH_STEPS) :=
    particleFadeOut_fin ⟨step, by omega⟩
  refine ⟨hA1, hA2,
    fun fb => drawParticleMorph_eq_applyWrites fromBm toBm step x0 y0 w hw fb,
    by rw [hpm]; exact hmlen,
    by rw [hpm]; exact hnd,
    by rw [hpm]; exact hmem,
    by rw [hpm]; exact hrec,
    ?_, hH, hI, ?_, ?_, hfin, ?_, ?_⟩
  · unfold particleMatchedWrites particleMatch
    rw [hTkF, hTkT, hmF, hmT]
  · rw [hH, List.length_map]
    rw [length_filter_not_mem (particleMatch fromBm toBm w)
      (buildPixelsFromBitmap toBm w).length (by rw [hpm]; exact hnd)
      (by rw [hpm]; exact hmem2)]
    rw [hpm, hmlen]
  · rw [hI, List.length_map, List.length_range']
    omega
  · intro h12 h16
    rw [if_neg (fun h => h.elim h12 h16)] at hfout
    exact hfout
  · intro h
    rw [if_pos h] at hfout
    exact hfout

theorem particle_morph_accounting_witness :
    particleFadeIn 10 = 255 * 10 / MORPH_STEPS :=
  (particle_morph_accounting (DIGITS 1) (DIGITS 2) 10 0 0 DIGIT_W
    (by decide) (by decide)).2.2.2.2.2.2.2.2.2.2.2.2.1




/-- A fold of single `fbSetW` writes on any grid is the application of
the mapped write list. -/
theorem foldl_fbSetW_writes {α : Type} (W H : Nat) (f g : α → Int) (v : α → Nat)
    (l : List α) (fb : List (List Nat)) :
    l.foldl (fun fb2 a => fbSetW W H fb2 (f a) (g a) (v a)) fb =
      applyWrites W H fb (l.map fun a => (f a, g a, v a)) := by
  induction l generalizing fb with
  | nil => rfl
  | cons a l ih =>
    rw [List.foldl_cons, List.map_cons, applyWrites_cons]
    exact ih _

/-- A write present in the list contributes its value to the cell's
write trace. -/
theorem writesAt_mem_intro (l : List Write) (e : Write) (x y : Int)
    (he : e ∈ l) (hx : e.1 = x) (hy : e.2.1 = y) : e.2.2 ∈ writesAt l x y :=
  List.mem_filterMap.mpr ⟨e, he, by rw [if_pos ⟨hx, hy⟩]⟩

theorem getLast?_append_right {α : Type} (l1 l2 : List α) (h : l2 ≠ []) :
    (l1 ++ l2).getLast? = l2.getLast? :=
  List.getLast?_append_of_ne_nil l1 h

/-! ### The part_001 revision (V0): 128×32 grid, 16×24 glyphs, crossfade
morph with row duplication, and the colon blink (part_001 lines 37-66,
79-145, 167-190, 432-498; grid size and `MORPH_STEPS = 10` from the
matching config header). -/

namespace V0

def LED_MATRIX_W : Nat := 128

def LED_MATRIX_H : Nat := 32

def MORPH_STEPS : Nat := 10

/-- The `setPx` lambda of part_001 (16 × 24 box). -/
def bmSetPx (rows : List Nat) (x y : Nat) : List Nat :=
  if x < 16 && y < 24 then rows.set y (rows.getD y 0 ||| (1 <<< (15 - x))) else rows

/-- Fill a rectangle iterating y in the outer loop (horizontal segments). -/
def fillRectYX (rows : List Nat) (ys xs : List Nat) : List Nat :=
  ys.foldl (fun r y => xs.foldl (fun r2 x => bmSetPx r2 x y) r) rows

/-- Fill a rectangle iterating x in the outer loop (vertical segments). -/
def fillRectXY (rows : List Nat) (xs ys : List Nat) : List Nat :=
  xs.foldl (fun r x => ys.foldl (fun r2 y => bmSetPx r2 x y) r) rows

/-- `makeDigit7Seg` of part_001 (lines 79-130): 16×24 glyphs with
`padX = padY = 2`, `th = 3`, `midY = 12`; same segment table and drawing
order as the later revision. -/
def makeDigit7Seg (d : Nat) : Bitmap :=
  let seg := segTable d
  let s := fun i => seg.getD i false
  let r0 : List Nat := List.replicate 24 0
  let r1 := if s 0 then fillRectYX r0 (List.range' 2 3) (List.range' 2 (16 - 2 - 2)) else r0
  let r2 := if s 3 then fillRectYX r1 (List.range' (24 - 2 - 3) 3) (List.range' 2 (16 - 2 - 2)) else r1
  let r3 := if s 6 then fillRectYX r2 (List.range' (12 - 3 / 2) 3) (List.range' 2 (16 - 2 - 2)) else r2
  let r4 := if s 5 then fillRectXY r3 (List.range' 2 3) (List.range' 2 (12 - 2)) else r3
  let r5 := if s 1 then fillRectXY r4 (List.range' (16 - 2 - 3) 3) (List.range' 2 (12 - 2)) else r4
  let r6 := if s 4 then fillRectXY r5 (List.range' 2 3) (List.range' 12 (24 - 2 - 12)) else r5
  let r7 := if s 2 then fillRectXY r6 (List.range' (16 - 2 - 3) 3) (List.range' 12 (24 - 2 - 12)) else r6
  ⟨r7⟩

/-- The part_001 `DIGITS` table. -/
def DIGITS (d : Nat) : Bitmap := makeDigit7Seg d

/-- The part_001 `COLON`: two 2-wide dots at rows 7-9 and 14-16,
columns 7-8. -/
def COLON : Bitmap :=
  let r0 : List Nat := List.replicate 24 0
  let r1 := fillRectYX r0 (List.range' 7 3) (List.range' 7 2)
  let r2 := fillRectYX r1 (List.range' 14 3) (List.range' 7 2)
  ⟨r2⟩

/-- The per-cell morph intensity of part_001 `drawMorph`: the fade values
go through binary32 arithmetic (`255 * (float)(M-step) / (float)M`) and a
C truncating int cast. -/
def morphVal (aon bon : Bool) (step : Nat) : Nat :=
  if aon && bon then 255
  else if aon && !bon then
    (truncF (fdiv (fmul (fofInt 255) (fofInt ((MORPH_STEPS : Int) - (step : Int))))
      (fofInt (MORPH_STEPS : Int)))).toNat
  else if !aon && bon then
    (truncF (fdiv (fmul (fofInt 255) (fofInt (step : Int)))
      (fofInt (MORPH_STEPS : Int)))).toNat
  else 0

/-- `drawMorph` of part_001 (lines 167-190): 16×24 cells, each on-value
written at row `y*32/24` and, when different, also at `(y+1)*32/24`. -/
def drawMorph (a b : Bitmap) (step : Nat) (x0 y0 : Int)
    (fb : List (List Nat)) : List (List Nat) :=
  (List.range 24).foldl (fun fb1 y =>
    (List.range 16).foldl (fun fb2 x =>
      if morphVal (bmOn a x y) (bmOn b x y) step = 0 then fb2
      else
        let fb3 := fbSetW LED_MATRIX_W LED_MATRIX_H fb2 (x0 + (x : Int))
          (y0 + ((y * LED_MATRIX_H / 24 : Nat) : Int))
          (morphVal (bmOn a x y) (bmOn b x y) step)
        if (y + 1) * LED_MATRIX_H / 24 ≠ y * LED_MATRIX_H / 24 then
          fbSetW LED_MATRIX_W LED_MATRIX_H fb3 (x0 + (x : Int))
            (y0 + (((y + 1) * LED_MATRIX_H / 24 : Nat) : Int))
            (morphVal (bmOn a x y) (bmOn b x y) step)
        else fb3) fb1) fb

/-- The write list emitted by part_001 `drawMorph`. -/
def morphWrites (a b : Bitmap) (step : Nat) (x0 y0 : Int) : List Write :=
  (List.range 24).flatMap fun y =>
    (List.range 16).flatMap fun x =>
      if morphVal (bmOn a x y) (bmOn b x y) step = 0 then []
      else
        (x0 + (x : Int), y0 + ((y * LED_MATRIX_H / 24 : Nat) : Int),
          morphVal (bmOn a x y) (bmOn b x y) step) ::
        (if (y + 1) * LED_MATRIX_H / 24 ≠ y * LED_MATRIX_H / 24 then
          [(x0 + (x : Int), y0 + (((y + 1) * LED_MATRIX_H / 24 : Nat) : Int),
            morphVal (bmOn a x y) (bmOn b x y) step)]
        else [])

theorem drawMorphV0_eq_applyWrites (a b : Bitmap) (step : Nat) (x0 y0 : Int)
    (fb : List (List Nat)) :
    drawMorph a b step x0 y0 fb =
      applyWrites LED_MATRIX_W LED_MATRIX_H fb (morphWrites a b step x0 y0) := by
  unfold drawMorph morphWrites
  have hb : ∀ y : Nat,
      (fun fb2 (x : Nat) =>
        if morphVal (bmOn a x y) (bmOn b x y) step = 0 then fb2
        else
          let fb3 := fbSetW LED_MATRIX_W LED_MATRIX_H fb2 (x0 + (x : Int))
            (y0 + ((y * LED_MATRIX_H / 24 : Nat) : Int))
            (morphVal (bmOn a x y) (bmOn b x y) step)
          if (y + 1) * LED_MATRIX_H / 24 ≠ y * LED_MATRIX_H / 24 then
            fbSetW LED_MATRIX_W LED_MATRIX_H fb3 (x0 + (x : Int))
              (y0 + (((y + 1) * LED_MATRIX_H / 24 : Nat) : Int))
              (morphVal (bmOn a x y) (bmOn b x y) step)
          else fb3) =
      (fun fb2 (x : Nat) => applyWrites LED_MATRIX_W LED_MATRIX_H fb2
        (if morphVal (bmOn a x y) (bmOn b x y) step = 0 then []
         else
          (x0 + (x : Int), y0 + ((y * LED_MATRIX_H / 24 : Nat) : Int),
            morphVal (bmOn a x y) (bmOn b x y) step) ::
          (if (y + 1) * LED_MATRIX_H / 24 ≠ y * LED_MATRIX_H / 24 then
            [(x0 + (x : Int), y0 + (((y + 1) * LED_MATRIX_H / 24 : Nat) : Int),
              morphVal (bmOn a x y) (bmOn b x y) step)]
          else []))) := by
    intro y
    funext fb2 x
    split
    · rfl
    · dsimp only
      split <;> rfl
  have hrow : (fun fb1 (y : Nat) =>
      (List.range 16).foldl (fun fb2 (x : Nat) =>
        if morphVal (bmOn a x y) (bmOn b x y) step = 0 then fb2
        else
          let fb3 := fbSetW LED_MATRIX_W LED_MATRIX_H fb2 (x0 + (x : Int))
            (y0 + ((y * LED_MATRIX_H / 24 : Nat) : Int))
            (morphVal (bmOn a x y) (bmOn b x y) step)
          if (y + 1) * LED_MATRIX_H / 24 ≠ y * LED_MATRIX_H / 24 then
            fbSetW LED_MATRIX_W LED_MATRIX_H fb3 (x0 + (x : Int))
              (y0 + (((y + 1) * LED_MATRIX_H / 24 : Nat) : Int))
              (morphVal (bmOn a x y) (bmOn b x y) step)
          else fb3) fb1) =
      (fun fb1 (y : Nat) => applyWrites LED_MATRIX_W LED_MATRIX_H fb1
        ((List.range 16).flatMap fun x =>
          if morphVal (bmOn a x y) (bmOn b x y) step = 0 then []
          else
            (x0 + (x : Int), y0 + ((y * LED_MATRIX_H / 24 : Nat) : Int),
              morphVal (bmOn a x y) (bmOn b x y) step) ::
            (if (y + 1) * LED_MATRIX_H / 24 ≠ y * LED_MATRIX_H / 24 then
              [(x0 + (x : Int), y0 + (((y + 1) * LED_MATRIX_H / 24 : Nat) : Int),
                morphVal (bmOn a x y) (bmOn b x y) step)]
            else []))) := by
    funext fb1 y
    rw [hb y, foldl_applyWrites]
  rw [hrow, foldl_applyWrites]

/-- Every write of a part_001 morph lies in the 16 columns starting at
its x offset. -/
theorem morphWrites_mem (a b : Bitmap) (step : Nat) (x0 y0 : Int) (e : Write)
    (he : e ∈ morphWrites a b step x0 y0) :
    ∃ x2 : Nat, x2 < 16 ∧ e.1 = x0 + (x2 : Int) := by
  unfold morphWrites at he
  obtain ⟨y2, hy2, he2⟩ := List.mem_flatMap.mp he
  obtain ⟨x2, hx2, he3⟩ := List.mem_flatMap.mp he2
  by_cases h0 : morphVal (bmOn a x2 y2) (bmOn b x2 y2) step = 0
  · rw [if_pos h0] at he3
    simp at he3
  · rw [if_neg h0] at he3
    refine ⟨x2, List.mem_range.mp hx2, ?_⟩
    rcases List.mem_cons.mp he3 with h | h
    · rw [h]
    · by_cases hy : (y2 + 1) * LED_MATRIX_H / 24 ≠ y2 * LED_MATRIX_H / 24
      · rw [if_pos hy] at h
        rw [List.mem_singleton.mp h]
      · rw [if_neg hy] at h
        simp at h

/-- The part_001 clock state: current second, previous and current HHMM
strings (`char[5]`, four significant characters) and the morph counter. -/
structure ClockState where
  lastSecond : Nat
  prevHHMM : List Char
  currHHMM : List Char
  morphStep : Nat
  deriving DecidableEq

/-- `drawFrame` of part_001 (lines 455-498): clear, four crossfade-morphed
digits and a static colon (drawn as `drawMorph COLON COLON 0`), then the
blink: on even seconds the colon's 16-column range is cleared to 0. -/
def drawFrame (st : ClockState) : List (List Nat) :=
  let fb := fbClearW LED_MATRIX_W LED_MATRIX_H 0
  let digitW : Int := 16
  let colonW : Int := 16
  let totalW : Int := digitW * 4 + colonW
  let x0 : Int := Int.tdiv ((LED_MATRIX_W : Int) - totalW) 2
  let y0 : Int := 0
  let d0 := digitIdx (st.currHHMM.getD 0 '-')
  let d1 := digitIdx (st.currHHMM.getD 1 '-')
  let d2 := digitIdx (st.currHHMM.getD 2 '-')
  let d3 := digitIdx (st.currHHMM.getD 3 '-')
  let p0 := digitIdx (st.prevHHMM.getD 0 '-')
  let p1 := digitIdx (st.prevHHMM.getD 1 '-')
  let p2 := digitIdx (st.prevHHMM.getD 2 '-')
  let p3 := digitIdx (st.prevHHMM.getD 3 '-')
  let step := if st.morphStep > MORPH_STEPS then MORPH_STEPS else st.morphStep
  let fb := drawMorph (DIGITS p0) (DIGITS d0) step (x0 + 0 * digitW) y0 fb
  let fb := drawMorph (DIGITS p1) (DIGITS d1) step (x0 + 1 * digitW) y0 fb
  let fb := drawMorph COLON COLON 0 (x0 + 2 * digitW) y0 fb
  let fb := drawMorph (DIGITS p2) (DIGITS d2) step (x0 + 2 * digitW + colonW) y0 fb
  let fb := drawMorph (DIGITS p3) (DIGITS d3) step (x0 + 3 * digitW + colonW) y0 fb
  if st.lastSecond % 2 = 0 then
    (List.range LED_MATRIX_H).foldl (fun fbc (yy : Nat) =>
      (List.range 16).foldl (fun fbc2 (k : Nat) =>
        fbSetW LED_MATRIX_W LED_MATRIX_H fbc2 (x0 + 2 * digitW + (k : Int))
          ((yy : Nat) : Int) 0) fbc) fb
  else fb

/-- The writes of the colon-blink clearing loop. -/
def blinkWrites (x0 : Int) : List Write :=
  (List.range LED_MATRIX_H).flatMap fun (yy : Nat) =>
    (List.range 16).map fun (k : Nat) => (x0 + 2 * 16 + (k : Int), ((yy : Nat) : Int), 0)

/-- All writes of one part_001 frame, in emission order. -/
def frameWrites (st : ClockState) : List Write :=
  let digitW : Int := 16
  let colonW : Int := 16
  let x0 : Int := Int.tdiv ((LED_MATRIX_W : Int) - (digitW * 4 + colonW)) 2
  let step := if st.morphStep > MORPH_STEPS then MORPH_STEPS else st.morphStep
  morphWrites (DIGITS (digitIdx (st.prevHHMM.getD 0 '-')))
      (DIGITS (digitIdx (st.currHHMM.getD 0 '-'))) step (x0 + 0 * digitW) 0 ++
    (morphWrites (DIGITS (digitIdx (st.prevHHMM.getD 1 '-')))
        (DIGITS (digitIdx (st.currHHMM.getD 1 '-'))) step (x0 + 1 * digitW) 0 ++
      (morphWrites COLON COLON 0 (x0 + 2 * digitW) 0 ++
        (morphWrites (DIGITS (digitIdx (st.prevHHMM.getD 2 '-')))
            (DIGITS (digitIdx (st.currHHMM.getD 2 '-'))) step
            (x0 + 2 * digitW + colonW) 0 ++
          (morphWrites (DIGITS (digitIdx (st.prevHHMM.getD 3 '-')))
              (DIGITS (digitIdx (st.currHHMM.getD 3 '-'))) step
              (x0 + 3 * digitW + colonW) 0 ++
            (if st.lastSecond % 2 = 0 then blinkWrites x0 else [])))))

theorem drawFrameV0_eq_applyWrites (st : ClockState) :
    drawFrame st = applyWrites LED_MATRIX_W LED_MATRIX_H
      (fbClearW LED_MATRIX_W LED_MATRIX_H 0) (frameWrites st) := by
  unfold drawFrame frameWrites blinkWrites
  dsimp only
  rw [applyWrites_append, applyWrites_append, applyWrites_append, applyWrites_append,
    applyWrites_append]
  rw [drawMorphV0_eq_applyWrites, drawMorphV0_eq_applyWrites, drawMorphV0_eq_applyWrites,
    drawMorphV0_eq_applyWrites, drawMorphV0_eq_applyWrites]
  by_cases hpar : st.lastSecond % 2 = 0
  · rw [if_pos hpar, if_pos hpar]
    have hrow : (fun fbc (yy : Nat) =>
        (List.range 16).foldl (fun fbc2 (k : Nat) =>
          fbSetW LED_MATRIX_W LED_MATRIX_H fbc2
            (Int.tdiv ((LED_MATRIX_W : Int) - (16 * 4 + 16)) 2 + 2 * 16 + (k : Int))
            ((yy : Nat) : Int) 0) fbc) =
        (fun fbc (yy : Nat) => applyWrites LED_MATRIX_W LED_MATRIX_H fbc
          ((List.range 16).map fun (k : Nat) =>
            (Int.tdiv ((LED_MATRIX_W : Int) - (16 * 4 + 16)) 2 + 2 * 16 + (k : Int),
              ((yy : Nat) : Int), 0))) := by
      funext fbc yy
      exact foldl_fbSetW_writes _ _ _ _ _ _ _
    rw [hrow, foldl_applyWrites]
  · rw [if_neg hpar, if_neg hpar, applyWrites_nil]

/-- Every blink write carries intensity 0. -/
theorem blinkWrites_val (x0 : Int) (e : Write) (he : e ∈ blinkWrites x0) :
    e.2.2 = 0 := by
  unfold blinkWrites at he
  obtain ⟨yy, hyy, he2⟩ := List.mem_flatMap.mp he
  obtain ⟨k, hk, he3⟩ := List.mem_map.mp he2
  rw [← he3]

/-- The blink loop hits every cell of the colon's 16-column range. -/
theorem blinkWrites_cover (x0 x y : Int) (hx1 : x0 + 2 * 16 ≤ x)
    (hx2 : x < x0 + 2 * 16 + 16) (hy1 : 0 ≤ y) (hy2 : y < 32) :
    (0 : Nat) ∈ writesAt (blinkWrites x0) x y := by
  apply writesAt_mem_intro (blinkWrites x0) (x, y, 0) x y ?_ rfl rfl
  unfold blinkWrites
  apply List.mem_flatMap.mpr
  refine ⟨y.toNat, List.mem_range.mpr (by simp only [LED_MATRIX_H]; omega), ?_⟩
  apply List.mem_map.mpr
  refine ⟨(x - (x0 + 2 * 16)).toNat, List.mem_range.mpr (by omega), ?_⟩
  simp only [Prod.mk.injEq]
  refine ⟨by omega, by omega, trivial⟩

end V0

theorem append_ne_nil_right {α : Type} (l1 l2 : List α) (h : l2 ≠ []) :
    l1 ++ l2 ≠ [] :=
  fun hc => h (List.append_eq_nil.mp hc).2

/-- C9 (amended): in the part_001 revision the colon blink is controlled
by the parity of the current second alone — on even seconds every cell of
the colon's column range [56, 72) reads 0, on odd seconds the range reads
exactly the static colon morph writes (independent of the digit strings
and the morph step), and the colon's upper dot is lit there. -/
theorem colon_blink_parity_v0 (st : V0.ClockState) :
    (st.lastSecond % 2 = 0 →
      ∀ x y : Int, 56 ≤ x → x < 72 → 0 ≤ y → y < 32 →
        fbGetW V0.LED_MATRIX_W V0.LED_MATRIX_H (V0.drawFrame st) x y = 0) ∧
    (¬ (st.lastSecond % 2 = 0) →
      ∀ x y : Int, 56 ≤ x → x < 72 → 0 ≤ y → y < 32 →
        fbGetW V0.LED_MATRIX_W V0.LED_MATRIX_H (V0.drawFrame st) x y =
          cellOf (V0.morphWrites V0.COLON V0.COLON 0 56 0) x y) ∧
    cellOf (V0.morphWrites V0.COLON V0.COLON 0 56 0) 63 9 = 255 := by
  have hW : ((V0.LED_MATRIX_W : Nat) : Int) = 128 := by norm_num [V0.LED_MATRIX_W]
  have hH : ((V0.LED_MATRIX_H : Nat) : Int) = 32 := by norm_num [V0.LED_MATRIX_H]
  have hx0 : Int.tdiv (((V0.LED_MATRIX_W : Nat) : Int) - (16 * 4 + 16)) 2 = 24 := by
    decide
  refine ⟨?_, ?_, by decide⟩
  · intro hpar x y hx1 hx2 hy1 hy2
    rw [V0.drawFrameV0_eq_applyWrites]
    rw [fbGet_applyWrites_getD _ _ _ _ _ _ (fbWF_fbClearW _ _ _) (by omega) hy1
      (by rw [hW]; omega) (by rw [hH]; omega)]
    rw [fbGetW_fbClearW _ _ _ _ _ (by omega) hy1 (by rw [hW]; omega) (by rw [hH]; omega)]
    unfold V0.frameWrites
    dsimp only
    rw [hx0, if_pos hpar]
    rw [writesAt_append, writesAt_append, writesAt_append, writesAt_append,
      writesAt_append]
    have hblink : writesAt (V0.blinkWrites 24) x y ≠ [] :=
      List.ne_nil_of_mem (V0.blinkWrites_cover 24 x y (by omega) (by omega) hy1 hy2)
    rw [getLast?_append_right _ _ (append_ne_nil_right _ _ (append_ne_nil_right _ _
      (append_ne_nil_right _ _ (append_ne_nil_right _ _ hblink))))]
    rw [getLast?_append_right _ _ (append_ne_nil_right _ _
      (append_ne_nil_right _ _ (append_ne_nil_right _ _ hblink)))]
    rw [getLast?_append_right _ _ (append_ne_nil_right _ _
      (append_ne_nil_right _ _ hblink))]
    rw [getLast?_append_right _ _ (append_ne_nil_right _ _ hblink)]
    rw [getLast?_append_right _ _ hblink]
    rcases hlast : (writesAt (V0.blinkWrites 24) x y).getLast? with _ | v
    · rfl
    · have hv : v ∈ writesAt (V0.blinkWrites 24) x y := by
        obtain ⟨hne2, hveq⟩ := List.mem_getLast?_eq_getLast (Option.mem_def.mpr hlast)
        rw [hveq]
        exact List.getLast_mem hne2
      obtain ⟨e, he, hev⟩ := mem_of_writesAt _ _ _ _ hv
      rw [Option.getD_some, ← hev]
      exact V0.blinkWrites_val 24 e he
  · intro hpar x y hx1 hx2 hy1 hy2
    rw [V0.drawFrameV0_eq_applyWrites]
    rw [fbGet_applyWrites_getD _ _ _ _ _ _ (fbWF_fbClearW _ _ _) (by omega) hy1
      (by rw [hW]; omega) (by rw [hH]; omega)]
    rw [fbGetW_fbClearW _ _ _ _ _ (by omega) hy1 (by rw [hW]; omega) (by rw [hH]; omega)]
    unfold V0.frameWrites
    dsimp only
    rw [hx0, if_neg hpar]
    rw [writesAt_append, writesAt_append, writesAt_append, writesAt_append,
      writesAt_append]
    have hnil : ∀ (a b : Bitmap) (s : Nat) (xoff : Int),
        xoff + 16 ≤ x ∨ x < xoff →
        writesAt (V0.morphWrites a b s xoff 0) x y = [] := by
      intro a b s xoff hoff
      apply writesAt_eq_nil_of
      intro e he hc
      obtain ⟨x2, hx2lt, hex⟩ := V0.morphWrites_mem a b s xoff 0 e he
      rw [hex] at hc
      have : ((x2 : Nat) : Int) < 16 := by exact_mod_cast hx2lt
      omega
    rw [hnil _ _ _ (24 + 0 * 16) (by omega), hnil _ _ _ (24 + 1 * 16) (by omega),
      hnil _ _ _ (24 + 2 * 16 + 16) (by omega), hnil _ _ _ (24 + 3 * 16 + 16) (by omega)]
    simp only [writesAt_nil, List.nil_append, List.append_nil]
    rw [show (24 : Int) + 2 * 16 = 56 from by norm_num]
    rfl

theorem colon_blink_parity_v0_witness :
    fbGetW V0.LED_MATRIX_W V0.LED_MATRIX_H
      (V0.drawFrame ⟨0, "----".toList, "----".toList, V0.MORPH_STEPS⟩) 60 5 = 0 :=
  (colon_blink_parity_v0 ⟨0, "----".toList, "----".toList, V0.MORPH_STEPS⟩).1
    (by decide) 60 5 (by decide) (by decide) (by decide) (by decide)

end RetroClock
